import Mathlib

/-!
# CanoKey QEMU device: endpoint buffers and transaction dispatch

A shallow embedding of `hw/usb/canokey.c` and `hw/usb/canokey.h`.

* C arrays indexed by endpoint number are functions from `Nat`; the cells of the
  C arrays are the indices below `CANOKEY_EP_NUM`.
* The rows of `ep_in[CANOKEY_EP_NUM][CANOKEY_EP_IN_BUFFER_SIZE]` lie one after
  the other in memory: a copy that runs past the end of a row goes on in the
  next row (`ep_in_write`, `ep_in_read`).  Rows from index `CANOKEY_EP_NUM` on
  stand for the memory behind the array; which fields of the struct lie there
  is not followed, so statements about buffer contents keep their copies
  inside the array.
* A `QemuMutex` is a `Bool` (held or free).  The mutexes are not recursive:
  locking a held mutex never returns, which is the result `none`.
* The backend (libcanokey-qemu) is not part of the sources.  Each call into it
  is recorded in the field `calls`, and what the backend does during the call is
  given as the list of entry points (`EmuCall`) it invokes before it returns.
* Memory reached through the `ep_out` pointers is the byte map `mem`.
-/

namespace CanoKey

/-! ## Constants and enumerations (canokey.h, canokey.c) -/

/-- Mask `CANOKEY_EP_IN(ep) = ep & 0x7F` (canokey.c line 22). -/
def CANOKEY_EP_IN (ep : Nat) : Nat := ep &&& 0x7F

/-- Number of endpoints: CTRL INTR BULK (canokey.h line 24). -/
def CANOKEY_EP_NUM : Nat := 3

/-- Size of each IN buffer (canokey.h line 26). -/
def CANOKEY_EP_IN_BUFFER_SIZE : Nat := 1024

/-- Enumeration `CanoKeyEPStatus` (canokey.h lines 28-32). -/
inductive CanoKeyEPStatus where
  | CANOKEY_EP_IN_WAIT
  | CANOKEY_EP_IN_READY
  | CANOKEY_EP_IN_STALL
  deriving DecidableEq, Repr

/-- Modelled from the spec: the packet results the device writes to `p->status`
(`hw/usb.h` is not among the sources): success (the value a packet starts
with), not-ready and protocol stall. -/
inductive USBRet where
  | USB_RET_SUCCESS
  | USB_RET_NAK
  | USB_RET_STALL
  deriving DecidableEq, Repr

/-- Modelled from the spec: the token of a packet, `p->pid` (`hw/usb.h` is not
among the sources).  `canokey_handle_data` has a case for OUT, a case for IN and
a default case. -/
inductive USBPid where
  | USB_TOKEN_SETUP
  | USB_TOKEN_IN
  | USB_TOKEN_OUT
  deriving DecidableEq, Repr

/-- Modelled from the spec: the direction bit of a control request,
`DeviceRequest = (USB_DIR_IN | USB_TYPE_STANDARD | USB_RECIP_DEVICE) << 8`
of `hw/usb.h` (not among the sources). -/
def DeviceRequest : Nat := 0x8000

/-- Null pointer. -/
def NULL : Nat := 0

/-- Width of `uint32_t`, the type of `ep_in_pos`, `ep_in_size`, `ep_out_size`
and of the local `in_len`. -/
def UINT32 : Nat := 2 ^ 32

/-! ## Calls into the backend and entry points called by the backend -/

/-- Calls the device makes into the backend, and signals of `key_cond`, in the
order they are made. -/
inductive Event where
  | canokey_emu_setup (request value index length : Nat)
  | canokey_emu_data_out (ep : Nat) (data : Option (List Nat))
  | canokey_emu_data_in (ep : Nat)
  | canokey_emu_reset
  | canokey_emu_device_loop
  | qemu_cond_signal
  deriving DecidableEq, Repr

/-- Entry points of canokey.c the backend may call while it runs
(canokey.c lines 65-107).  `pbuf` of `transmit` is the bytes readable at the
pointer, `pbuf` of `prepare_receive` is an address in `mem`. -/
inductive EmuCall where
  | stall_ep (ep : Nat)
  | set_address (addr : Nat)
  | prepare_receive (ep : Nat) (pbuf : Nat) (size : Nat)
  | transmit (ep : Nat) (pbuf : List Nat) (size : Nat)
  deriving DecidableEq, Repr

/-! ## State (canokey.h lines 34-58) -/

/-- Struct `CanoKeyState`, with the memory behind the `ep_out` pointers (`mem`)
and the record of backend calls (`calls`). -/
structure CanoKeyState where
  addr : Nat
  ep_in : Nat → List Nat
  ep_in_pos : Nat → Nat
  ep_in_size : Nat → Nat
  ep_in_status : Nat → CanoKeyEPStatus
  ep_in_mutex : Nat → Bool
  ep_out : Nat → Nat
  ep_out_size : Nat → Nat
  key_mutex : Bool
  stop_thread : Bool
  mem : Nat → Nat
  calls : List Event

/-- Modelled from the spec: the fields of `USBPacket` the device uses
(`hw/usb.h` is not among the sources): token, endpoint number `p->ep->nr`,
`p->iov.size`, the bytes of the packet (`iov`: the bytes the host sends for
OUT, the bytes copied to the bus so far for IN), `p->status` and
`p->actual_length`. -/
structure USBPacket where
  pid : USBPid
  nr : Nat
  iov_size : Nat
  iov : List Nat
  status : USBRet
  actual_length : Nat
  deriving DecidableEq, Repr

/-! ## Memory helpers -/

/-- Array cell assignment `f[i] = v`. -/
def upd {α : Type} (f : Nat → α) (i : Nat) (v : α) : Nat → α :=
  fun j => if j = i then v else f j

/-- The part of library `memcpy(dst, src, n)` that lands in the array `dst`:
the first `n` cells take the first `n` bytes at `src`, the array keeps its
length.  `src` is the bytes readable at the source.  It is used row by row in
`ep_in_write`, which follows a copy into `ep_in` across the rows, and for the
data buffer of a control transaction, where the copy is followed as long as it
stays inside the buffer of the endpoint and inside `data`. -/
def memcpy (dst src : List Nat) (n : Nat) : List Nat :=
  (src.take n ++ dst.drop n).take dst.length

/-- Library `memcpy(key->ep_in[i], src, n)` on the array `ep_in`, whose rows of
`CANOKEY_EP_IN_BUFFER_SIZE` bytes lie one after the other: row `i` takes the
first bytes at `src`, and a copy longer than the row goes on in the rows that
follow (row `r` takes the bytes from offset
`(r - i) * CANOKEY_EP_IN_BUFFER_SIZE` of the copy on). -/
def ep_in_write (ep_in : Nat → List Nat) (i : Nat) (src : List Nat) (n : Nat) :
    Nat → List Nat :=
  fun r =>
    if r < i then ep_in r
    else if n ≤ (r - i) * CANOKEY_EP_IN_BUFFER_SIZE then ep_in r
    else
      memcpy (ep_in r) (src.drop ((r - i) * CANOKEY_EP_IN_BUFFER_SIZE))
        (n - (r - i) * CANOKEY_EP_IN_BUFFER_SIZE)

/-- The `n` bytes readable at the pointer `key->ep_in[i] + off`: byte `k` is
cell `(off + k) % CANOKEY_EP_IN_BUFFER_SIZE` of row
`i + (off + k) / CANOKEY_EP_IN_BUFFER_SIZE`, so a read that passes the end of
row `i` goes on in the rows that follow. -/
def ep_in_read (ep_in : Nat → List Nat) (i off n : Nat) : List Nat :=
  (List.range n).map (fun k =>
    (ep_in (i + (off + k) / CANOKEY_EP_IN_BUFFER_SIZE)).getD
      ((off + k) % CANOKEY_EP_IN_BUFFER_SIZE) 0)

/-- Write `bytes` to memory at address `ptr`. -/
def mem_write (mem : Nat → Nat) (ptr : Nat) (bytes : List Nat) : Nat → Nat :=
  fun a => if ptr ≤ a ∧ a < ptr + bytes.length then bytes.getD (a - ptr) 0 else mem a

/-- The `n` bytes of memory at address `ptr`. -/
def mem_read (mem : Nat → Nat) (ptr n : Nat) : List Nat :=
  (List.range n).map (fun i => mem (ptr + i))

/-- Modelled from the spec: `usb_packet_copy` of the USB core (not among the
sources) for an IN packet: `bytes` bytes at `src` are copied to the bus and
`actual_length` grows by `bytes`.  `src` is the bytes readable at the source
pointer, at least `bytes` of them (`ep_in_read` for a pointer into `ep_in`). -/
def usb_packet_copy_in (p : USBPacket) (src : List Nat) (bytes : Nat) : USBPacket :=
  { p with iov := p.iov ++ src.take bytes, actual_length := p.actual_length + bytes }

/-- Modelled from the spec: `usb_packet_copy` of the USB core (not among the
sources) for an OUT packet: the next `bytes` bytes of the packet are written
to memory at `ptr` and `actual_length` grows by `bytes`. -/
def usb_packet_copy_out (p : USBPacket) (mem : Nat → Nat) (ptr bytes : Nat) :
    USBPacket × (Nat → Nat) :=
  ({ p with actual_length := p.actual_length + bytes },
   mem_write mem ptr ((p.iov.drop p.actual_length).take bytes))

/-! ## Mutexes and backend calls -/

/-- Call `qemu_mutex_lock(&key->ep_in_mutex[i])`. -/
def lock_ep_in (key : CanoKeyState) (i : Nat) : Option CanoKeyState :=
  if key.ep_in_mutex i then none
  else some { key with ep_in_mutex := upd key.ep_in_mutex i true }

/-- Call `qemu_mutex_unlock(&key->ep_in_mutex[i])`. -/
def unlock_ep_in (key : CanoKeyState) (i : Nat) : CanoKeyState :=
  { key with ep_in_mutex := upd key.ep_in_mutex i false }

/-- Call `qemu_mutex_lock(&key->key_mutex)`. -/
def lock_key (key : CanoKeyState) : Option CanoKeyState :=
  if key.key_mutex then none else some { key with key_mutex := true }

/-- Call `qemu_mutex_unlock(&key->key_mutex)`. -/
def unlock_key (key : CanoKeyState) : CanoKeyState :=
  { key with key_mutex := false }

/-- Record a call into the backend or a signal. -/
def emit (key : CanoKeyState) (e : Event) : CanoKeyState :=
  { key with calls := key.calls ++ [e] }

/-! ## Entry points called by the backend (canokey.c lines 65-113) -/

/-- Function `canokey_emu_stall_ep` (canokey.c lines 65-74). -/
def canokey_emu_stall_ep (key : CanoKeyState) (ep : Nat) : Option CanoKeyState := do
  let ep_in := CANOKEY_EP_IN ep
  let key ← lock_ep_in key ep_in
  let key := { key with ep_in_size := upd key.ep_in_size ep_in 0 }
  let key := { key with
    ep_in_status := upd key.ep_in_status ep_in CanoKeyEPStatus.CANOKEY_EP_IN_STALL }
  some (unlock_ep_in key ep_in)

/-- Function `canokey_emu_set_address` (canokey.c lines 76-81). -/
def canokey_emu_set_address (key : CanoKeyState) (addr : Nat) : CanoKeyState :=
  { key with addr := addr }

/-- Function `canokey_emu_prepare_receive` (canokey.c lines 83-94): no mutex. -/
def canokey_emu_prepare_receive (key : CanoKeyState) (ep pbuf size : Nat) :
    CanoKeyState :=
  let key := { key with ep_out := upd key.ep_out ep pbuf }
  let key := { key with ep_out_size := upd key.ep_out_size ep size }
  key

/-- Function `canokey_emu_transmit` (canokey.c lines 96-107). -/
def canokey_emu_transmit (key : CanoKeyState) (ep : Nat) (pbuf : List Nat) (size : Nat) :
    Option CanoKeyState := do
  let ep_in := CANOKEY_EP_IN ep
  let key ← lock_ep_in key ep_in
  let key := { key with ep_in := ep_in_write key.ep_in ep_in pbuf size }
  let key := { key with ep_in_size := upd key.ep_in_size ep_in size }
  let key := { key with
    ep_in_status := upd key.ep_in_status ep_in CanoKeyEPStatus.CANOKEY_EP_IN_READY }
  some (unlock_ep_in key ep_in)

/-- Function `canokey_emu_get_rx_data_size` (canokey.c lines 109-113). -/
def canokey_emu_get_rx_data_size (key : CanoKeyState) (ep : Nat) : Nat :=
  key.ep_out_size ep

/-- One entry point called by the backend. -/
def emu_call (key : CanoKeyState) : EmuCall → Option CanoKeyState
  | EmuCall.stall_ep ep => canokey_emu_stall_ep key ep
  | EmuCall.set_address a => some (canokey_emu_set_address key a)
  | EmuCall.prepare_receive ep pbuf size => some (canokey_emu_prepare_receive key ep pbuf size)
  | EmuCall.transmit ep pbuf size => canokey_emu_transmit key ep pbuf size

/-- What the backend does during one call into it: the entry points it calls,
in order, before it returns. -/
def emu_calls (key : CanoKeyState) : List EmuCall → Option CanoKeyState
  | [] => some key
  | c :: cs => (emu_call key c).bind (fun k => emu_calls k cs)

/-- A call into the backend: the call is recorded, then the backend runs. -/
def backend (key : CanoKeyState) (e : Event) (react : List EmuCall) : Option CanoKeyState :=
  emu_calls (emit key e) react

/-! ## Device callbacks (canokey.c lines 136-273) -/

/-- The loop of `canokey_handle_reset` and `canokey_realize`
(canokey.c lines 139-142 and 258-262), from index `i` for `n` more rounds. -/
def reset_loop (key : CanoKeyState) (i : Nat) : Nat → CanoKeyState
  | 0 => key
  | n + 1 =>
    let key := { key with
      ep_in_status := upd key.ep_in_status i CanoKeyEPStatus.CANOKEY_EP_IN_WAIT }
    let key := { key with ep_in_pos := upd key.ep_in_pos i 0 }
    reset_loop key (i + 1) n

/-- Function `canokey_handle_reset` (canokey.c lines 136-144). -/
def canokey_handle_reset (key : CanoKeyState) (on_reset : List EmuCall) :
    Option CanoKeyState :=
  let key := reset_loop key 0 CANOKEY_EP_NUM
  backend key Event.canokey_emu_reset on_reset

/-- First part of `canokey_handle_control` (canokey.c lines 151-165): the
setup call into the backend, the signal, and for a request without the
direction bit the OUT part under `key_mutex`. -/
def handle_control_out (key : CanoKeyState) (p : USBPacket)
    (request value index length : Nat) (data : List Nat)
    (on_setup on_data_out : List EmuCall) : Option CanoKeyState := do
  let key ← backend key (Event.canokey_emu_setup request value index length) on_setup
  let key := emit key Event.qemu_cond_signal
  let dir_in := request &&& DeviceRequest
  if dir_in = 0 then
    -- OUT
    let key ← lock_key key
    let key := { key with
      mem :=
        if key.ep_out 0 ≠ NULL then mem_write key.mem (key.ep_out 0) (data.take length)
        else key.mem }
    let key ← backend key (Event.canokey_emu_data_out p.nr (some data)) on_data_out
    let key := emit key Event.qemu_cond_signal
    some (unlock_key key)
  else some key

/-- Second part of `canokey_handle_control` (canokey.c lines 167-181): the IN
part under `ep_in_mutex[ep_in]`.  The result is the state, the packet and the
transaction's data buffer. -/
def handle_control_in (key : CanoKeyState) (p : USBPacket) (data : List Nat) :
    Option (CanoKeyState × USBPacket × List Nat) := do
  let ep_in := CANOKEY_EP_IN p.nr
  let key ← lock_ep_in key ep_in
  if key.ep_in_status ep_in = CanoKeyEPStatus.CANOKEY_EP_IN_WAIT then
    let p := { p with status := USBRet.USB_RET_NAK }
    some (unlock_ep_in key ep_in, p, data)
  else
    let p := { p with
      status :=
        if key.ep_in_status ep_in = CanoKeyEPStatus.CANOKEY_EP_IN_STALL then
          USBRet.USB_RET_STALL
        else p.status }
    let key := { key with
      ep_in_status := upd key.ep_in_status ep_in CanoKeyEPStatus.CANOKEY_EP_IN_WAIT }
    let data := memcpy data (key.ep_in ep_in) (key.ep_in_size ep_in)
    let p := { p with actual_length := key.ep_in_size ep_in }
    some (unlock_ep_in key ep_in, p, data)

/-- Function `canokey_handle_control` (canokey.c lines 146-182).  `data` is the
transaction's data buffer, `on_setup` and `on_data_out` are what the backend
does during `canokey_emu_setup` and `canokey_emu_data_out`. -/
def canokey_handle_control (key : CanoKeyState) (p : USBPacket)
    (request value index length : Nat) (data : List Nat)
    (on_setup on_data_out : List EmuCall) :
    Option (CanoKeyState × USBPacket × List Nat) :=
  (handle_control_out key p request value index length data on_setup on_data_out).bind
    (fun key => handle_control_in key p data)

/-- Function `canokey_handle_data` (canokey.c lines 184-242).  `react` is what
the backend does during the one call the function makes into it
(`canokey_emu_data_out` or `canokey_emu_data_in`). -/
def canokey_handle_data (key : CanoKeyState) (p : USBPacket) (react : List EmuCall) :
    Option (CanoKeyState × USBPacket) :=
  let ep_in := CANOKEY_EP_IN p.nr
  let ep_out := p.nr
  match p.pid with
  | USBPid.USB_TOKEN_OUT => do
    let key ← lock_key key
    if p.iov_size > key.ep_out_size ep_out then
      -- unlikely we will reach here, but check still needed
      let p := { p with status := USBRet.USB_RET_NAK }
      some (unlock_key key, p)
    else
      let (p, mem) := usb_packet_copy_out p key.mem (key.ep_out ep_out) p.iov_size
      let key := { key with mem := mem }
      let key := { key with ep_out_size := upd key.ep_out_size ep_out (p.iov_size % UINT32) }
      let key ← backend key (Event.canokey_emu_data_out ep_out none) react
      let key := emit key Event.qemu_cond_signal
      some (unlock_key key, p)
  | USBPid.USB_TOKEN_IN => do
    let key ← lock_ep_in key ep_in
    if key.ep_in_pos ep_in = 0 then
      let key ← backend key (Event.canokey_emu_data_in ep_in) react
      let key := emit key Event.qemu_cond_signal
      if key.ep_in_status ep_in = CanoKeyEPStatus.CANOKEY_EP_IN_WAIT then
        let p := { p with status := USBRet.USB_RET_NAK }
        some (unlock_ep_in key ep_in, p)
      else
        let p := { p with
          status :=
            if key.ep_in_status ep_in = CanoKeyEPStatus.CANOKEY_EP_IN_STALL then
              USBRet.USB_RET_STALL
            else p.status }
        let key := { key with
          ep_in_status := upd key.ep_in_status ep_in CanoKeyEPStatus.CANOKEY_EP_IN_WAIT }
        let in_len := min (key.ep_in_size ep_in) p.iov_size
        let p := usb_packet_copy_in p (ep_in_read key.ep_in ep_in 0 in_len) in_len
        let key := { key with
          ep_in_pos :=
            if in_len < key.ep_in_size ep_in then upd key.ep_in_pos ep_in in_len
            else key.ep_in_pos }
        some (unlock_ep_in key ep_in, p)
    else
      let in_len :=
        min ((key.ep_in_size ep_in + UINT32 - key.ep_in_pos ep_in) % UINT32) p.iov_size
      let p :=
        usb_packet_copy_in p (ep_in_read key.ep_in ep_in (key.ep_in_pos ep_in) in_len) in_len
      let key := { key with
        ep_in_pos := upd key.ep_in_pos ep_in ((key.ep_in_pos ep_in + in_len) % UINT32) }
      let key := { key with
        ep_in_pos :=
          if key.ep_in_pos ep_in = key.ep_in_size ep_in then upd key.ep_in_pos ep_in 0
          else key.ep_in_pos }
      some (unlock_ep_in key ep_in, p)
  | USBPid.USB_TOKEN_SETUP =>
    some (key, { p with status := USBRet.USB_RET_STALL })

/-- The object before `canokey_realize`: all fields zero. -/
def zeroed : CanoKeyState :=
  { addr := 0
    ep_in := fun _ => List.replicate CANOKEY_EP_IN_BUFFER_SIZE 0
    ep_in_pos := fun _ => 0
    ep_in_size := fun _ => 0
    ep_in_status := fun _ => CanoKeyEPStatus.CANOKEY_EP_IN_WAIT
    ep_in_mutex := fun _ => false
    ep_out := fun _ => NULL
    ep_out_size := fun _ => 0
    key_mutex := false
    stop_thread := false
    mem := fun _ => 0
    calls := [] }

/-- The state `canokey_realize` sets up in the zero-filled object
(canokey.c lines 255-270): every endpoint waiting with cursor 0, mutexes free,
stop flag clear.  The property check, the backend initialisation and the
creation of the thread are left out. -/
def canokey_realize : CanoKeyState :=
  { reset_loop zeroed 0 CANOKEY_EP_NUM with stop_thread := false }

/-! ## Packets and sequences of transactions used in the statements -/

/-- A fresh IN packet for endpoint `nr` with room for `cap` bytes. -/
def in_packet (nr cap : Nat) : USBPacket :=
  { pid := USBPid.USB_TOKEN_IN, nr := nr, iov_size := cap, iov := [],
    status := USBRet.USB_RET_SUCCESS, actual_length := 0 }

/-- A fresh OUT packet for endpoint `nr` carrying `bytes`. -/
def out_packet (nr : Nat) (bytes : List Nat) : USBPacket :=
  { pid := USBPid.USB_TOKEN_OUT, nr := nr, iov_size := bytes.length, iov := bytes,
    status := USBRet.USB_RET_SUCCESS, actual_length := 0 }

/-- A sequence of IN data transactions on endpoint `nr`, one per capacity in
the list, during which the backend calls no entry point.  The result lists,
in order, the state and the packet each transaction leaves. -/
def drain (key : CanoKeyState) (nr : Nat) : List Nat → Option (List (CanoKeyState × USBPacket))
  | [] => some []
  | c :: cs =>
    (canokey_handle_data key (in_packet nr c) []).bind
      (fun r => (drain r.1 nr cs).map (fun rs => r :: rs))

/-- The bytes copied to the bus by a sequence of transactions, in order. -/
def delivered (rs : List (CanoKeyState × USBPacket)) : List Nat :=
  (rs.map (fun r => r.2.iov)).flatten

/-- The state a sequence of transactions ends in. -/
def final (key : CanoKeyState) : List (CanoKeyState × USBPacket) → CanoKeyState
  | [] => key
  | r :: rs => final r.1 rs

/-- A control packet on endpoint 0 (the setup packet of a control transfer). -/
def control_packet : USBPacket :=
  { pid := USBPid.USB_TOKEN_SETUP, nr := 0, iov_size := 8, iov := [],
    status := USBRet.USB_RET_SUCCESS, actual_length := 0 }

/-- The state after the backend stages `size` bytes of `pbuf` on endpoint `ep`
with `canokey_emu_transmit` (the state itself if the call never returns). -/
def staged (key : CanoKeyState) (ep : Nat) (pbuf : List Nat) (size : Nat) : CanoKeyState :=
  (canokey_emu_transmit key ep pbuf size).getD key

/-! ## The worker thread (canokey.c lines 115-134) -/

/-- One wake of the worker out of `qemu_cond_wait`: `stop` tells whether
`canokey_unrealize` has set `stop_thread` (canokey.c line 280) since the
previous check, `device_loop` is what the backend does during
`canokey_emu_device_loop` if that call is made. -/
structure Wake where
  stop : Bool
  device_loop : List EmuCall
  deriving DecidableEq, Repr

/-- Function `canokey_thread` (canokey.c lines 115-134), run over the wakes it
gets.  The result is the state and whether the thread has returned (`true`) or
is waiting for the next signal (`false`).  While the thread waits in
`qemu_cond_wait` the mutex `key_mutex` is released; of what the other thread
does meanwhile only the write to `stop_thread` is followed. -/
def canokey_thread (key : CanoKeyState) : List Wake → Option (CanoKeyState × Bool)
  | [] => some (key, false)
  | w :: ws => do
    -- Wait signal
    let key ← lock_key key
    let key := { key with stop_thread := key.stop_thread || w.stop }
    let key := unlock_key key
    -- Exit thread check
    if key.stop_thread then
      some ({ key with stop_thread := false }, true)
    else
      let key ← backend key Event.canokey_emu_device_loop w.device_loop
      canokey_thread key ws

/-- A sequence of OUT data transactions on endpoint `nr`, one per byte list,
during which the backend calls no entry point.  The result lists, in order, the
state and the packet each transaction leaves. -/
def out_run (key : CanoKeyState) (nr : Nat) :
    List (List Nat) → Option (List (CanoKeyState × USBPacket))
  | [] => some []
  | b :: bs =>
    (canokey_handle_data key (out_packet nr b) []).bind
      (fun r => (out_run r.1 nr bs).map (fun rs => r :: rs))

/-- No mutex of the device is held. -/
def no_lock_held (key : CanoKeyState) : Prop :=
  key.key_mutex = false ∧ ∀ i, key.ep_in_mutex i = false

/-- A state with a transfer in progress on IN endpoint 1: 130 bytes staged,
8 of them delivered (cursor 8), as `canokey_handle_data` leaves it. -/
def transfer_in_progress : CanoKeyState :=
  { canokey_realize with
    ep_in := upd canokey_realize.ep_in 1
      (memcpy (canokey_realize.ep_in 1) (List.range 130) 130)
    ep_in_size := upd canokey_realize.ep_in_size 1 130
    ep_in_pos := upd canokey_realize.ep_in_pos 1 8 }

/-! ## Helper lemmas -/

@[simp] theorem upd_same {α : Type} (f : Nat → α) (i : Nat) (v : α) : upd f i v i = v := by
  simp [upd]

theorem upd_other {α : Type} (f : Nat → α) (i j : Nat) (v : α) (h : j ≠ i) :
    upd f i v j = f j := by
  simp [upd, h]

/-- Writing to a cell the value it holds, over any earlier write, restores the array. -/
theorem upd_upd_self {α : Type} (f : Nat → α) (i : Nat) (v w : α) (h : f i = v) :
    upd (upd f i w) i v = f := by
  funext j
  by_cases hj : j = i
  · subst hj; simp [h]
  · simp [upd, hj]

theorem upd_self {α : Type} (f : Nat → α) (i : Nat) (v : α) (h : f i = v) :
    upd f i v = f := by
  funext j
  by_cases hj : j = i
  · subst hj; simp [h]
  · simp [upd, hj]

/-- Unlocking after locking a free `key_mutex` gives the state back. -/
theorem unlock_lock_key (key : CanoKeyState) (h : key.key_mutex = false) :
    unlock_key { key with key_mutex := true } = key := by
  cases key
  simp_all [unlock_key]

theorem mem_write_nil (mem : Nat → Nat) (ptr : Nat) : mem_write mem ptr [] = mem := by
  funext a
  simp [mem_write]

/-- Reading back what was just written. -/
theorem mem_read_write (mem : Nat → Nat) (ptr : Nat) (bytes : List Nat) :
    mem_read (mem_write mem ptr bytes) ptr bytes.length = bytes := by
  apply List.ext_getElem
  · simp [mem_read]
  · intro i h1 h2
    simp [mem_read, mem_write, h2, List.getD_eq_getElem]

/-- What `canokey_emu_stall_ep` does when the endpoint mutex is free. -/
theorem stall_ep_free (key : CanoKeyState) (ep : Nat)
    (h : key.ep_in_mutex (CANOKEY_EP_IN ep) = false) :
    canokey_emu_stall_ep key ep = some
      { key with
        ep_in_size := upd key.ep_in_size (CANOKEY_EP_IN ep) 0
        ep_in_status := upd key.ep_in_status (CANOKEY_EP_IN ep)
          CanoKeyEPStatus.CANOKEY_EP_IN_STALL
        ep_in_mutex := upd (upd key.ep_in_mutex (CANOKEY_EP_IN ep) true)
          (CANOKEY_EP_IN ep) false } := by
  simp [canokey_emu_stall_ep, lock_ep_in, unlock_ep_in, h, bind]

/-- What `canokey_emu_transmit` does when the endpoint mutex is free. -/
theorem transmit_free (key : CanoKeyState) (ep : Nat) (pbuf : List Nat) (size : Nat)
    (h : key.ep_in_mutex (CANOKEY_EP_IN ep) = false) :
    canokey_emu_transmit key ep pbuf size = some
      { key with
        ep_in := ep_in_write key.ep_in (CANOKEY_EP_IN ep) pbuf size
        ep_in_size := upd key.ep_in_size (CANOKEY_EP_IN ep) size
        ep_in_status := upd key.ep_in_status (CANOKEY_EP_IN ep)
          CanoKeyEPStatus.CANOKEY_EP_IN_READY
        ep_in_mutex := upd (upd key.ep_in_mutex (CANOKEY_EP_IN ep) true)
          (CANOKEY_EP_IN ep) false } := by
  simp [canokey_emu_transmit, lock_ep_in, unlock_ep_in, h, bind]

/-- An entry point that needs a held endpoint mutex never returns. -/
theorem stall_ep_held (key : CanoKeyState) (ep : Nat)
    (h : key.ep_in_mutex (CANOKEY_EP_IN ep) = true) :
    canokey_emu_stall_ep key ep = none := by
  simp [canokey_emu_stall_ep, lock_ep_in, h, bind]

theorem transmit_held (key : CanoKeyState) (ep : Nat) (pbuf : List Nat) (size : Nat)
    (h : key.ep_in_mutex (CANOKEY_EP_IN ep) = true) :
    canokey_emu_transmit key ep pbuf size = none := by
  simp [canokey_emu_transmit, lock_ep_in, h, bind]

/-- Entry points record no call into the backend and leave `key_mutex` alone. -/
theorem emu_call_calls (key k : CanoKeyState) (c : EmuCall) (h : emu_call key c = some k) :
    k.calls = key.calls ∧ k.key_mutex = key.key_mutex := by
  cases c with
  | stall_ep ep =>
    cases hm : key.ep_in_mutex (CANOKEY_EP_IN ep)
    · simp [emu_call, stall_ep_free key ep hm] at h
      subst h; simp
    · simp [emu_call, stall_ep_held key ep hm] at h
  | set_address a =>
    simp [emu_call, canokey_emu_set_address] at h
    subst h; simp
  | prepare_receive ep pbuf size =>
    simp [emu_call, canokey_emu_prepare_receive] at h
    subst h; simp
  | transmit ep pbuf size =>
    cases hm : key.ep_in_mutex (CANOKEY_EP_IN ep)
    · simp [emu_call, transmit_free key ep pbuf size hm] at h
      subst h; simp
    · simp [emu_call, transmit_held key ep pbuf size hm] at h

theorem emu_calls_calls (cs : List EmuCall) : ∀ (key k : CanoKeyState),
    emu_calls key cs = some k → k.calls = key.calls ∧ k.key_mutex = key.key_mutex := by
  induction cs with
  | nil => intro key k h; simp [emu_calls] at h; subst h; simp
  | cons c cs ih =>
    intro key k h
    simp [emu_calls, Option.bind_eq_some] at h
    obtain ⟨k1, h1, h2⟩ := h
    have a := emu_call_calls key k1 c h1
    have b := ih k1 k h2
    exact ⟨b.1.trans a.1, b.2.trans a.2⟩

/-- The row a copy starts in takes the first bytes of the copy. -/
theorem ep_in_write_same (ep_in : Nat → List Nat) (i : Nat) (src : List Nat) (n : Nat) :
    ep_in_write ep_in i src n i = memcpy (ep_in i) src n := by
  by_cases hn : n = 0
  · subst hn
    simp [ep_in_write, memcpy]
  · have : ¬ n ≤ 0 := by omega
    simp [ep_in_write, this]

/-- Rows before the one a copy starts in are not written. -/
theorem ep_in_write_before (ep_in : Nat → List Nat) (i r : Nat) (src : List Nat) (n : Nat)
    (h : r < i) : ep_in_write ep_in i src n r = ep_in r := by
  simp [ep_in_write, h]

/-- A copy of at most `CANOKEY_EP_IN_BUFFER_SIZE` bytes writes one row only. -/
theorem ep_in_write_le (ep_in : Nat → List Nat) (i : Nat) (src : List Nat) (n : Nat)
    (h : n ≤ CANOKEY_EP_IN_BUFFER_SIZE) :
    ep_in_write ep_in i src n = upd ep_in i (memcpy (ep_in i) src n) := by
  funext r
  rcases Nat.lt_trichotomy r i with hr | hr | hr
  · rw [ep_in_write_before _ _ _ _ _ hr]
    simp [upd, Nat.ne_of_lt hr]
  · subst hr
    rw [ep_in_write_same]
    simp [upd]
  · have h1 : ¬ r < i := by omega
    have h2 : n ≤ (r - i) * CANOKEY_EP_IN_BUFFER_SIZE := by
      have : 1 ≤ r - i := by omega
      calc n ≤ 1 * CANOKEY_EP_IN_BUFFER_SIZE := by omega
        _ ≤ (r - i) * CANOKEY_EP_IN_BUFFER_SIZE := Nat.mul_le_mul_right _ this
    have h3 : r ≠ i := by omega
    simp [ep_in_write, h1, h2, upd, h3]

/-- Every row keeps its length under a copy into the array. -/
theorem ep_in_write_length (ep_in : Nat → List Nat) (i r : Nat) (src : List Nat) (n : Nat)
    (hsrc : n ≤ src.length) :
    (ep_in_write ep_in i src n r).length = (ep_in r).length := by
  unfold ep_in_write
  split
  · rfl
  · split
    · rfl
    · simp [memcpy]
      omega

theorem ep_in_read_length (ep_in : Nat → List Nat) (i off n : Nat) :
    (ep_in_read ep_in i off n).length = n := by
  simp [ep_in_read]

theorem ep_in_read_take (ep_in : Nat → List Nat) (i off n : Nat) :
    (ep_in_read ep_in i off n).take n = ep_in_read ep_in i off n :=
  List.take_of_length_le (by simp [ep_in_read])

theorem ep_in_read_zero (ep_in : Nat → List Nat) (i off : Nat) :
    ep_in_read ep_in i off 0 = [] := by
  simp [ep_in_read]

/-- A read that stays inside row `i` gives the cells of that row. -/
theorem ep_in_read_row (ep_in : Nat → List Nat) (i off n : Nat)
    (h1 : off + n ≤ CANOKEY_EP_IN_BUFFER_SIZE) (h2 : off + n ≤ (ep_in i).length) :
    ep_in_read ep_in i off n = ((ep_in i).drop off).take n := by
  apply List.ext_getElem
  · simp [ep_in_read]; omega
  · intro k hk1 hk2
    simp [ep_in_read] at hk1
    have hd : (off + k) / CANOKEY_EP_IN_BUFFER_SIZE = 0 := by
      apply Nat.div_eq_of_lt; omega
    have hm : (off + k) % CANOKEY_EP_IN_BUFFER_SIZE = off + k := Nat.mod_eq_of_lt (by omega)
    have hlt : off + k < (ep_in i).length := by omega
    simp [ep_in_read, hd, hm, List.getD_eq_getElem, hlt]

/-- A read that stays inside row `i` sees no other row. -/
theorem ep_in_read_congr (f g : Nat → List Nat) (i off n : Nat)
    (h1 : off + n ≤ CANOKEY_EP_IN_BUFFER_SIZE) (h : f i = g i) :
    ep_in_read f i off n = ep_in_read g i off n := by
  unfold ep_in_read
  apply List.map_congr_left
  intro k hk
  have hk1 : k < n := List.mem_range.mp hk
  have hd : (off + k) / CANOKEY_EP_IN_BUFFER_SIZE = 0 := by
    apply Nat.div_eq_of_lt; omega
  simp [hd, h]

/-- The first `n` cells of an array after `memcpy` hold the first `n` source bytes. -/
theorem memcpy_take (dst src : List Nat) (n : Nat) (hd : n ≤ dst.length) (hs : n ≤ src.length) :
    (memcpy dst src n).take n = src.take n := by
  unfold memcpy
  rw [List.take_take, Nat.min_eq_left hd, List.take_append_of_le_length (by simp [hs])]
  simp

theorem memcpy_length (dst src : List Nat) (n : Nat) (hs : n ≤ src.length) :
    (memcpy dst src n).length = dst.length := by
  unfold memcpy
  simp
  omega

theorem memcpy_drop (dst src : List Nat) (n : Nat) (hs : n ≤ src.length) :
    (memcpy dst src n).drop n = dst.drop n := by
  unfold memcpy
  by_cases hd : n ≤ dst.length
  · have h1 : (src.take n ++ dst.drop n).length = dst.length := by simp; omega
    rw [← h1, List.take_length, List.drop_append_of_le_length (by simp [hs])]
    simp [List.drop_take]
  · rw [List.drop_eq_nil_of_le (by simp; omega), List.drop_eq_nil_of_le (by omega)]

/-- Unlocking after locking a free endpoint mutex gives the state back. -/
theorem unlock_lock_ep_in (key : CanoKeyState) (i : Nat) (h : key.ep_in_mutex i = false) :
    unlock_ep_in { key with ep_in_mutex := upd key.ep_in_mutex i true } i = key := by
  cases key
  simp_all [unlock_ep_in, upd_upd_self]

/-- With every endpoint mutex free the backend's entry-point calls all return,
and they leave every endpoint mutex free. -/
theorem emu_calls_total (cs : List EmuCall) : ∀ key : CanoKeyState,
    (∀ i, key.ep_in_mutex i = false) →
    ∃ k, emu_calls key cs = some k ∧ (∀ i, k.ep_in_mutex i = false) := by
  induction cs with
  | nil => intro key h; exact ⟨key, rfl, h⟩
  | cons c cs ih =>
    intro key h
    have step : ∃ k1, emu_call key c = some k1 ∧ (∀ i, k1.ep_in_mutex i = false) := by
      cases c with
      | stall_ep ep =>
        refine ⟨_, stall_ep_free key ep (h _), ?_⟩
        intro i; simp [upd_upd_self _ _ _ _ (h (CANOKEY_EP_IN ep)), h]
      | set_address a => exact ⟨_, rfl, h⟩
      | prepare_receive ep pbuf size => exact ⟨_, rfl, h⟩
      | transmit ep pbuf size =>
        refine ⟨_, transmit_free key ep pbuf size (h _), ?_⟩
        intro i; simp [upd_upd_self _ _ _ _ (h (CANOKEY_EP_IN ep)), h]
    obtain ⟨k1, h1, h1f⟩ := step
    obtain ⟨k, h2, h2f⟩ := ih k1 h1f
    exact ⟨k, by simp [emu_calls, h1, h2], h2f⟩

/-- The IN part of a control transaction on a waiting endpoint. -/
theorem handle_control_in_wait (mid : CanoKeyState) (p : USBPacket) (data : List Nat)
    (hfree : mid.ep_in_mutex (CANOKEY_EP_IN p.nr) = false)
    (hst : mid.ep_in_status (CANOKEY_EP_IN p.nr) = CanoKeyEPStatus.CANOKEY_EP_IN_WAIT) :
    handle_control_in mid p data = some (mid, { p with status := USBRet.USB_RET_NAK }, data) := by
  simp [handle_control_in, lock_ep_in, hfree, hst, unlock_lock_ep_in]

/-- The IN part of a control transaction on an endpoint that is not waiting. -/
theorem handle_control_in_not_wait (mid : CanoKeyState) (p : USBPacket) (data : List Nat)
    (hfree : mid.ep_in_mutex (CANOKEY_EP_IN p.nr) = false)
    (hst : mid.ep_in_status (CANOKEY_EP_IN p.nr) ≠ CanoKeyEPStatus.CANOKEY_EP_IN_WAIT) :
    handle_control_in mid p data = some
      ({ mid with
          ep_in_status := upd mid.ep_in_status (CANOKEY_EP_IN p.nr)
            CanoKeyEPStatus.CANOKEY_EP_IN_WAIT },
        { p with
          status := if mid.ep_in_status (CANOKEY_EP_IN p.nr) = CanoKeyEPStatus.CANOKEY_EP_IN_STALL
            then USBRet.USB_RET_STALL else p.status
          actual_length := mid.ep_in_size (CANOKEY_EP_IN p.nr) },
        memcpy data (mid.ep_in (CANOKEY_EP_IN p.nr)) (mid.ep_in_size (CANOKEY_EP_IN p.nr))) := by
  simp only [handle_control_in, lock_ep_in, hfree, unlock_ep_in, upd_upd_self _ _ _ _ hfree]
  simp [hst, upd_upd_self _ _ _ _ hfree]

/-- An IN data transaction with cursor 0 that finds the endpoint waiting after
the backend call. -/
theorem handle_data_in_first_wait (key mid : CanoKeyState) (p : USBPacket)
    (react : List EmuCall) (hpid : p.pid = USBPid.USB_TOKEN_IN)
    (hfree : key.ep_in_mutex (CANOKEY_EP_IN p.nr) = false)
    (hpos : key.ep_in_pos (CANOKEY_EP_IN p.nr) = 0)
    (hmid : backend { key with ep_in_mutex := upd key.ep_in_mutex (CANOKEY_EP_IN p.nr) true }
      (Event.canokey_emu_data_in (CANOKEY_EP_IN p.nr)) react = some mid)
    (hst : mid.ep_in_status (CANOKEY_EP_IN p.nr) = CanoKeyEPStatus.CANOKEY_EP_IN_WAIT) :
    canokey_handle_data key p react =
      some (unlock_ep_in (emit mid Event.qemu_cond_signal) (CANOKEY_EP_IN p.nr),
        { p with status := USBRet.USB_RET_NAK }) := by
  unfold canokey_handle_data
  simp [hpid, lock_ep_in, hfree, hpos, hmid, emit, hst]

/-- An IN data transaction with cursor 0 that finds the endpoint ready or
stalled after the backend call. -/
theorem handle_data_in_first_deliver (key mid : CanoKeyState) (p : USBPacket)
    (react : List EmuCall) (hpid : p.pid = USBPid.USB_TOKEN_IN)
    (hfree : key.ep_in_mutex (CANOKEY_EP_IN p.nr) = false)
    (hpos : key.ep_in_pos (CANOKEY_EP_IN p.nr) = 0)
    (hmid : backend { key with ep_in_mutex := upd key.ep_in_mutex (CANOKEY_EP_IN p.nr) true }
      (Event.canokey_emu_data_in (CANOKEY_EP_IN p.nr)) react = some mid)
    (hst : mid.ep_in_status (CANOKEY_EP_IN p.nr) ≠ CanoKeyEPStatus.CANOKEY_EP_IN_WAIT) :
    canokey_handle_data key p react =
      some (unlock_ep_in
          { emit mid Event.qemu_cond_signal with
            ep_in_status := upd mid.ep_in_status (CANOKEY_EP_IN p.nr)
              CanoKeyEPStatus.CANOKEY_EP_IN_WAIT
            ep_in_pos :=
              if min (mid.ep_in_size (CANOKEY_EP_IN p.nr)) p.iov_size
                  < mid.ep_in_size (CANOKEY_EP_IN p.nr) then
                upd mid.ep_in_pos (CANOKEY_EP_IN p.nr)
                  (min (mid.ep_in_size (CANOKEY_EP_IN p.nr)) p.iov_size)
              else mid.ep_in_pos }
          (CANOKEY_EP_IN p.nr),
        usb_packet_copy_in
          { p with
            status :=
              if mid.ep_in_status (CANOKEY_EP_IN p.nr) = CanoKeyEPStatus.CANOKEY_EP_IN_STALL
              then USBRet.USB_RET_STALL else p.status }
          (ep_in_read mid.ep_in (CANOKEY_EP_IN p.nr) 0
            (min (mid.ep_in_size (CANOKEY_EP_IN p.nr)) p.iov_size))
          (min (mid.ep_in_size (CANOKEY_EP_IN p.nr)) p.iov_size)) := by
  simp [canokey_handle_data, hpid, lock_ep_in, hfree, hpos, hmid, emit, hst, unlock_ep_in,
    usb_packet_copy_in]

/-- An IN data transaction that continues a transfer (cursor not 0): no call
into the backend, no look at the status. -/
theorem handle_data_in_cont (key : CanoKeyState) (p : USBPacket)
    (react : List EmuCall) (hpid : p.pid = USBPid.USB_TOKEN_IN)
    (hfree : key.ep_in_mutex (CANOKEY_EP_IN p.nr) = false)
    (hpos : key.ep_in_pos (CANOKEY_EP_IN p.nr) ≠ 0) :
    canokey_handle_data key p react =
      some ({ key with
          ep_in_pos :=
            if (key.ep_in_pos (CANOKEY_EP_IN p.nr) +
                min ((key.ep_in_size (CANOKEY_EP_IN p.nr) + UINT32 -
                  key.ep_in_pos (CANOKEY_EP_IN p.nr)) % UINT32) p.iov_size) % UINT32
                = key.ep_in_size (CANOKEY_EP_IN p.nr) then
              upd key.ep_in_pos (CANOKEY_EP_IN p.nr) 0
            else
              upd key.ep_in_pos (CANOKEY_EP_IN p.nr)
                ((key.ep_in_pos (CANOKEY_EP_IN p.nr) +
                  min ((key.ep_in_size (CANOKEY_EP_IN p.nr) + UINT32 -
                    key.ep_in_pos (CANOKEY_EP_IN p.nr)) % UINT32) p.iov_size) % UINT32) },
        usb_packet_copy_in p
          (ep_in_read key.ep_in (CANOKEY_EP_IN p.nr) (key.ep_in_pos (CANOKEY_EP_IN p.nr))
            (min ((key.ep_in_size (CANOKEY_EP_IN p.nr) + UINT32 -
              key.ep_in_pos (CANOKEY_EP_IN p.nr)) % UINT32) p.iov_size))
          (min ((key.ep_in_size (CANOKEY_EP_IN p.nr) + UINT32 -
            key.ep_in_pos (CANOKEY_EP_IN p.nr)) % UINT32) p.iov_size)) := by
  simp [canokey_handle_data, hpid, lock_ep_in, hfree, hpos, unlock_ep_in,
    upd_upd_self _ _ _ _ hfree, usb_packet_copy_in]
  split
  · rename_i h
    simp [h]
    funext j
    by_cases hj : j = CANOKEY_EP_IN p.nr <;> simp [upd, hj]
  · rename_i h
    simp [h]

theorem backend_nil (key : CanoKeyState) (e : Event) : backend key e [] = some (emit key e) :=
  rfl

/-- One IN transaction on a waiting endpoint with cursor 0, backend silent. -/
theorem in_step_idle (key : CanoKeyState) (nr c : Nat)
    (hfree : key.ep_in_mutex (CANOKEY_EP_IN nr) = false)
    (hst : key.ep_in_status (CANOKEY_EP_IN nr) = CanoKeyEPStatus.CANOKEY_EP_IN_WAIT)
    (hpos : key.ep_in_pos (CANOKEY_EP_IN nr) = 0) :
    ∃ k' p', canokey_handle_data key (in_packet nr c) [] = some (k', p') ∧
      p'.iov = [] ∧ p'.status = USBRet.USB_RET_NAK ∧
      k'.ep_in_mutex (CANOKEY_EP_IN nr) = false ∧
      k'.ep_in_status (CANOKEY_EP_IN nr) = CanoKeyEPStatus.CANOKEY_EP_IN_WAIT ∧
      k'.ep_in_pos (CANOKEY_EP_IN nr) = 0 ∧
      k'.ep_in = key.ep_in ∧ k'.ep_in_size = key.ep_in_size := by
  have h := handle_data_in_first_wait key _ (in_packet nr c) [] rfl hfree hpos
    (backend_nil _ _) hst
  exact ⟨_, _, h, rfl, rfl, by simp [unlock_ep_in, in_packet, emit], hst, hpos, rfl, rfl⟩

/-- The first IN transaction on a ready or stalled endpoint with cursor 0,
backend silent. -/
theorem in_step_first (key : CanoKeyState) (nr c : Nat)
    (hfree : key.ep_in_mutex (CANOKEY_EP_IN nr) = false)
    (hst : key.ep_in_status (CANOKEY_EP_IN nr) ≠ CanoKeyEPStatus.CANOKEY_EP_IN_WAIT)
    (hpos : key.ep_in_pos (CANOKEY_EP_IN nr) = 0) :
    ∃ k' p', canokey_handle_data key (in_packet nr c) [] = some (k', p') ∧
      p'.iov = ep_in_read key.ep_in (CANOKEY_EP_IN nr) 0
        (min (key.ep_in_size (CANOKEY_EP_IN nr)) c) ∧
      p'.status =
        (if key.ep_in_status (CANOKEY_EP_IN nr) = CanoKeyEPStatus.CANOKEY_EP_IN_STALL
          then USBRet.USB_RET_STALL else USBRet.USB_RET_SUCCESS) ∧
      k'.ep_in_mutex (CANOKEY_EP_IN nr) = false ∧
      k'.ep_in_status (CANOKEY_EP_IN nr) = CanoKeyEPStatus.CANOKEY_EP_IN_WAIT ∧
      k'.ep_in_pos (CANOKEY_EP_IN nr) =
        (if c < key.ep_in_size (CANOKEY_EP_IN nr) then c else 0) ∧
      k'.ep_in = key.ep_in ∧ k'.ep_in_size = key.ep_in_size := by
  have hne : (emit { key with ep_in_mutex := upd key.ep_in_mutex (CANOKEY_EP_IN nr) true }
      (Event.canokey_emu_data_in (CANOKEY_EP_IN nr))).ep_in_status (CANOKEY_EP_IN nr)
      ≠ CanoKeyEPStatus.CANOKEY_EP_IN_WAIT := by
    simp [emit, hst]
  have h := handle_data_in_first_deliver key _ (in_packet nr c) [] rfl hfree hpos
    (backend_nil _ _) hne
  refine ⟨_, _, h, ?_, ?_, ?_, ?_, ?_, rfl, rfl⟩
  · simp [usb_packet_copy_in, in_packet, emit, ep_in_read_take]
  · simp [usb_packet_copy_in, in_packet, emit]
  · simp [unlock_ep_in, in_packet, emit]
  · simp [unlock_ep_in, in_packet, emit]
  · simp only [unlock_ep_in, emit, in_packet]
    by_cases hc : c < key.ep_in_size (CANOKEY_EP_IN nr)
    · have : min (key.ep_in_size (CANOKEY_EP_IN nr)) c = c := by omega
      simp [hc, this]
    · have : ¬ min (key.ep_in_size (CANOKEY_EP_IN nr)) c < key.ep_in_size (CANOKEY_EP_IN nr) := by
        omega
      simp [hc, this, hpos]

/-- One IN transaction that continues a transfer whose cursor is below the
staged size. -/
theorem in_step_cont (key : CanoKeyState) (nr c : Nat)
    (hfree : key.ep_in_mutex (CANOKEY_EP_IN nr) = false)
    (hpos : 0 < key.ep_in_pos (CANOKEY_EP_IN nr))
    (hlt : key.ep_in_pos (CANOKEY_EP_IN nr) < key.ep_in_size (CANOKEY_EP_IN nr))
    (hS : key.ep_in_size (CANOKEY_EP_IN nr) < UINT32) :
    ∃ k' p', canokey_handle_data key (in_packet nr c) [] = some (k', p') ∧
      p'.iov = ep_in_read key.ep_in (CANOKEY_EP_IN nr) (key.ep_in_pos (CANOKEY_EP_IN nr))
        (min (key.ep_in_size (CANOKEY_EP_IN nr) - key.ep_in_pos (CANOKEY_EP_IN nr)) c) ∧
      p'.status = USBRet.USB_RET_SUCCESS ∧
      k'.ep_in_mutex (CANOKEY_EP_IN nr) = false ∧
      k'.ep_in_status = key.ep_in_status ∧
      k'.ep_in_pos (CANOKEY_EP_IN nr) =
        (if key.ep_in_pos (CANOKEY_EP_IN nr) + c < key.ep_in_size (CANOKEY_EP_IN nr)
          then key.ep_in_pos (CANOKEY_EP_IN nr) + c else 0) ∧
      k'.ep_in = key.ep_in ∧ k'.ep_in_size = key.ep_in_size := by
  have h := handle_data_in_cont key (in_packet nr c) [] rfl hfree (by
    show key.ep_in_pos (CANOKEY_EP_IN nr) ≠ 0
    omega)
  have hsub : (key.ep_in_size (CANOKEY_EP_IN nr) + UINT32 - key.ep_in_pos (CANOKEY_EP_IN nr))
      % UINT32 = key.ep_in_size (CANOKEY_EP_IN nr) - key.ep_in_pos (CANOKEY_EP_IN nr) := by
    have : key.ep_in_size (CANOKEY_EP_IN nr) + UINT32 - key.ep_in_pos (CANOKEY_EP_IN nr)
        = (key.ep_in_size (CANOKEY_EP_IN nr) - key.ep_in_pos (CANOKEY_EP_IN nr)) + UINT32 := by
      omega
    rw [this, Nat.add_mod_right, Nat.mod_eq_of_lt (by omega)]
  refine ⟨_, _, h, ?_, rfl, hfree, rfl, ?_, rfl, rfl⟩
  · simp only [usb_packet_copy_in, in_packet, hsub]
    simp [ep_in_read_take]
  · simp only [in_packet, hsub]
    by_cases hc : key.ep_in_pos (CANOKEY_EP_IN nr) + c < key.ep_in_size (CANOKEY_EP_IN nr)
    · have hm : min (key.ep_in_size (CANOKEY_EP_IN nr) - key.ep_in_pos (CANOKEY_EP_IN nr)) c
          = c := by omega
      have hmod : (key.ep_in_pos (CANOKEY_EP_IN nr) + c) % UINT32
          = key.ep_in_pos (CANOKEY_EP_IN nr) + c := Nat.mod_eq_of_lt (by omega)
      have hne : ¬ key.ep_in_pos (CANOKEY_EP_IN nr) + c = key.ep_in_size (CANOKEY_EP_IN nr) := by
        omega
      simp [hc, hm, hmod, hne]
    · have hm : min (key.ep_in_size (CANOKEY_EP_IN nr) - key.ep_in_pos (CANOKEY_EP_IN nr)) c
          = key.ep_in_size (CANOKEY_EP_IN nr) - key.ep_in_pos (CANOKEY_EP_IN nr) := by omega
      have hsum : key.ep_in_pos (CANOKEY_EP_IN nr) +
          (key.ep_in_size (CANOKEY_EP_IN nr) - key.ep_in_pos (CANOKEY_EP_IN nr))
          = key.ep_in_size (CANOKEY_EP_IN nr) := by omega
      have hmod : key.ep_in_size (CANOKEY_EP_IN nr) % UINT32
          = key.ep_in_size (CANOKEY_EP_IN nr) := Nat.mod_eq_of_lt hS
      simp [hc, hm, hsum, hmod]


theorem delivered_cons (r : CanoKeyState × USBPacket) (rs : List (CanoKeyState × USBPacket)) :
    delivered (r :: rs) = r.2.iov ++ delivered rs := by
  simp [delivered]

theorem drain_cons (key k' : CanoKeyState) (p' : USBPacket) (nr c : Nat) (cs : List Nat)
    (rs : List (CanoKeyState × USBPacket))
    (h1 : canokey_handle_data key (in_packet nr c) [] = some (k', p'))
    (h2 : drain k' nr cs = some rs) :
    drain key nr (c :: cs) = some ((k', p') :: rs) := by
  simp [drain, h1, h2]

/-- Once the endpoint is waiting it stays waiting through any sequence of IN
transactions in which the backend is silent. -/
theorem drain_status_wait (nr : Nat) (caps : List Nat) : ∀ key : CanoKeyState,
    key.ep_in_mutex (CANOKEY_EP_IN nr) = false →
    key.ep_in_status (CANOKEY_EP_IN nr) = CanoKeyEPStatus.CANOKEY_EP_IN_WAIT →
    ∃ rs, drain key nr caps = some rs ∧ rs.length = caps.length ∧
      ∀ r ∈ rs, r.1.ep_in_status (CANOKEY_EP_IN nr) = CanoKeyEPStatus.CANOKEY_EP_IN_WAIT := by
  induction caps with
  | nil => intro key _ _; exact ⟨[], rfl, rfl, by simp⟩
  | cons c cs ih =>
    intro key hfree hst
    have step : ∃ k' p', canokey_handle_data key (in_packet nr c) [] = some (k', p') ∧
        k'.ep_in_mutex (CANOKEY_EP_IN nr) = false ∧
        k'.ep_in_status (CANOKEY_EP_IN nr) = CanoKeyEPStatus.CANOKEY_EP_IN_WAIT := by
      by_cases hpos : key.ep_in_pos (CANOKEY_EP_IN nr) = 0
      · obtain ⟨k', p', h, _, _, hf, hs, _⟩ := in_step_idle key nr c hfree hst hpos
        exact ⟨k', p', h, hf, hs⟩
      · exact ⟨_, _, handle_data_in_cont key (in_packet nr c) [] rfl hfree hpos, hfree, hst⟩
    obtain ⟨k', p', h1, hf, hs⟩ := step
    obtain ⟨rs, h2, hlen, hall⟩ := ih k' hf hs
    refine ⟨(k', p') :: rs, drain_cons key k' p' nr c cs rs h1 h2, by simp [hlen], ?_⟩
    intro r hr
    rcases List.mem_cons.mp hr with rfl | hr
    · exact hs
    · exact hall r hr

/-- On a waiting endpoint with cursor 0 every IN transaction is answered NAK and
nothing is delivered. -/
theorem drain_idle (nr : Nat) (caps : List Nat) : ∀ key : CanoKeyState,
    key.ep_in_mutex (CANOKEY_EP_IN nr) = false →
    key.ep_in_status (CANOKEY_EP_IN nr) = CanoKeyEPStatus.CANOKEY_EP_IN_WAIT →
    key.ep_in_pos (CANOKEY_EP_IN nr) = 0 →
    ∃ rs, drain key nr caps = some rs ∧ delivered rs = [] ∧
      (final key rs).ep_in_pos (CANOKEY_EP_IN nr) = 0 := by
  induction caps with
  | nil => intro key _ _ hpos; exact ⟨[], rfl, rfl, hpos⟩
  | cons c cs ih =>
    intro key hfree hst hpos
    obtain ⟨k', p', h1, hiov, _, hf, hs, hp, _⟩ := in_step_idle key nr c hfree hst hpos
    obtain ⟨rs, h2, hd, hfin⟩ := ih k' hf hs hp
    exact ⟨(k', p') :: rs, drain_cons key k' p' nr c cs rs h1 h2,
      by simp [delivered_cons, hiov, hd], hfin⟩

/-- Continuing a transfer whose staged size lies inside the endpoint's row:
the bytes from the cursor on are delivered in order, and the cursor goes back to
0 when the staged size is reached. -/
theorem drain_cont (nr : Nat) (caps : List Nat) : ∀ key : CanoKeyState,
    key.ep_in_mutex (CANOKEY_EP_IN nr) = false →
    key.ep_in_status (CANOKEY_EP_IN nr) = CanoKeyEPStatus.CANOKEY_EP_IN_WAIT →
    0 < key.ep_in_pos (CANOKEY_EP_IN nr) →
    key.ep_in_pos (CANOKEY_EP_IN nr) < key.ep_in_size (CANOKEY_EP_IN nr) →
    key.ep_in_size (CANOKEY_EP_IN nr) < UINT32 →
    key.ep_in_size (CANOKEY_EP_IN nr) ≤ CANOKEY_EP_IN_BUFFER_SIZE →
    key.ep_in_size (CANOKEY_EP_IN nr) ≤ (key.ep_in (CANOKEY_EP_IN nr)).length →
    ∃ rs, drain key nr caps = some rs ∧
      delivered rs =
        ((key.ep_in (CANOKEY_EP_IN nr)).drop (key.ep_in_pos (CANOKEY_EP_IN nr))).take
          (min (key.ep_in_size (CANOKEY_EP_IN nr) - key.ep_in_pos (CANOKEY_EP_IN nr))
            caps.sum) ∧
      (final key rs).ep_in_pos (CANOKEY_EP_IN nr) =
        (if key.ep_in_pos (CANOKEY_EP_IN nr) + caps.sum < key.ep_in_size (CANOKEY_EP_IN nr)
          then key.ep_in_pos (CANOKEY_EP_IN nr) + caps.sum else 0) := by
  induction caps with
  | nil =>
    intro key _ _ hpos hlt _ _ _
    exact ⟨[], rfl, by simp [delivered], by simp [final, hlt]⟩
  | cons c cs ih =>
    intro key hfree hst hpos hlt hS hB hR
    obtain ⟨k', p', h1, hiov, _, hf, hs, hp, hbuf, hsz⟩ := in_step_cont key nr c hfree hpos hlt hS
    rw [ep_in_read_row _ _ _ _ (by omega) (by omega)] at hiov
    by_cases hc : key.ep_in_pos (CANOKEY_EP_IN nr) + c < key.ep_in_size (CANOKEY_EP_IN nr)
    · rw [if_pos hc] at hp
      obtain ⟨rs, h2, hd, hfin⟩ := ih k' hf (by rw [hs]; exact hst) (by omega)
        (by rw [hp, hsz]; exact hc) (by rw [hsz]; exact hS) (by rw [hsz]; exact hB)
        (by rw [hsz, hbuf]; exact hR)
      refine ⟨(k', p') :: rs, drain_cons key k' p' nr c cs rs h1 h2, ?_, ?_⟩
      · rw [delivered_cons, hd, hiov, hbuf, hp, hsz]
        have hm : min (key.ep_in_size (CANOKEY_EP_IN nr) - key.ep_in_pos (CANOKEY_EP_IN nr)) c
            = c := by omega
        have hm2 : min (key.ep_in_size (CANOKEY_EP_IN nr) - key.ep_in_pos (CANOKEY_EP_IN nr))
            (c :: cs).sum = c + min (key.ep_in_size (CANOKEY_EP_IN nr) -
              (key.ep_in_pos (CANOKEY_EP_IN nr) + c)) cs.sum := by
          simp only [List.sum_cons]; omega
        rw [hm, hm2, List.take_add, List.drop_drop]
      · simp only [final]
        rw [hfin, hp, hsz, List.sum_cons, Nat.add_assoc]
    · rw [if_neg hc] at hp
      obtain ⟨rs, h2, hd, hfin⟩ := drain_idle nr cs k' hf (by rw [hs]; exact hst) hp
      refine ⟨(k', p') :: rs, drain_cons key k' p' nr c cs rs h1 h2, ?_, ?_⟩
      · rw [delivered_cons, hd, hiov]
        have hm : min (key.ep_in_size (CANOKEY_EP_IN nr) - key.ep_in_pos (CANOKEY_EP_IN nr)) c
            = key.ep_in_size (CANOKEY_EP_IN nr) - key.ep_in_pos (CANOKEY_EP_IN nr) := by omega
        have hm2 : min (key.ep_in_size (CANOKEY_EP_IN nr) - key.ep_in_pos (CANOKEY_EP_IN nr))
            (c :: cs).sum
            = key.ep_in_size (CANOKEY_EP_IN nr) - key.ep_in_pos (CANOKEY_EP_IN nr) := by
          simp only [List.sum_cons]; omega
        rw [hm, hm2]; simp
      · simp only [final]
        rw [hfin, if_neg]
        simp only [List.sum_cons]; omega


/-- Staging a payload of 1 to 1024 bytes on an endpoint with cursor 0 and
draining it by IN transactions of which the first has room for at least one
byte: the bytes delivered are the payload bytes in order, as far as the
capacities reach, and the cursor is 0 again exactly when all of them are out. -/
theorem drain_delivers_payload (key : CanoKeyState) (nr : Nat) (pbuf : List Nat)
    (size c : Nat) (cs : List Nat)
    (hfree : key.ep_in_mutex (CANOKEY_EP_IN nr) = false)
    (hpos : key.ep_in_pos (CANOKEY_EP_IN nr) = 0)
    (hbuf : (key.ep_in (CANOKEY_EP_IN nr)).length = CANOKEY_EP_IN_BUFFER_SIZE)
    (hcap : size ≤ CANOKEY_EP_IN_BUFFER_SIZE) (hsrc : pbuf.length = size)
    (hc : 0 < c) :
    ∃ key1 rs, canokey_emu_transmit key nr pbuf size = some key1 ∧
      drain key1 nr (c :: cs) = some rs ∧
      delivered rs = pbuf.take (c + cs.sum) ∧
      (size ≤ c + cs.sum → delivered rs = pbuf) ∧
      ((final key1 rs).ep_in_pos (CANOKEY_EP_IN nr) = 0 ↔ size ≤ c + cs.sum) := by
  have htx := transmit_free key nr pbuf size hfree
  obtain ⟨k', p', h1, hiov, _, hf, hs, hp, hb, hsz⟩ := in_step_first _ nr c
    (show ({ key with
        ep_in := ep_in_write key.ep_in (CANOKEY_EP_IN nr) pbuf size
        ep_in_size := upd key.ep_in_size (CANOKEY_EP_IN nr) size
        ep_in_status := upd key.ep_in_status (CANOKEY_EP_IN nr)
          CanoKeyEPStatus.CANOKEY_EP_IN_READY
        ep_in_mutex := upd (upd key.ep_in_mutex (CANOKEY_EP_IN nr) true)
          (CANOKEY_EP_IN nr) false } : CanoKeyState).ep_in_mutex (CANOKEY_EP_IN nr) = false by simp)
    (by simp) (by simpa using hpos)
  simp only [upd_same] at hiov hp
  have hb2 : k'.ep_in = ep_in_write key.ep_in (CANOKEY_EP_IN nr) pbuf size := hb
  have hbuf' : k'.ep_in (CANOKEY_EP_IN nr) = memcpy (key.ep_in (CANOKEY_EP_IN nr)) pbuf size := by
    rw [hb2]; exact ep_in_write_same _ _ _ _
  have hlen' : (k'.ep_in (CANOKEY_EP_IN nr)).length = CANOKEY_EP_IN_BUFFER_SIZE := by
    rw [hbuf', memcpy_length _ _ _ (by omega), hbuf]
  have hsz' : k'.ep_in_size (CANOKEY_EP_IN nr) = size := by rw [hsz]; simp
  have htake : (memcpy (key.ep_in (CANOKEY_EP_IN nr)) pbuf size).take size = pbuf := by
    rw [memcpy_take _ _ _ (by omega) (by omega), ← hsrc]; simp
  have hiov' : p'.iov = pbuf.take (min size c) := by
    have e1 : ((memcpy (key.ep_in (CANOKEY_EP_IN nr)) pbuf size).take size).take (min size c)
        = (memcpy (key.ep_in (CANOKEY_EP_IN nr)) pbuf size).take (min size c) := by
      rw [List.take_take, Nat.min_eq_left (by omega)]
    rw [hiov, ← hb2, ep_in_read_row _ _ _ _ (by omega) (by omega), hbuf', List.drop_zero,
      ← e1, htake]
  have hU : size < UINT32 := by
    have : CANOKEY_EP_IN_BUFFER_SIZE < UINT32 := by decide
    omega
  have hfull : ∀ n, size ≤ n → pbuf.take n = pbuf := by
    intro n hn
    exact List.take_of_length_le (by omega)
  by_cases hlt : c < size
  · rw [if_pos hlt] at hp
    obtain ⟨rs, h2, hd, hfin⟩ := drain_cont nr cs k' hf hs (by omega) (by omega) (by omega)
      (by omega) (by omega)
    have hdel : delivered ((k', p') :: rs) = pbuf.take (c + cs.sum) := by
      rw [delivered_cons, hd, hiov', hbuf', hp, hsz', List.take_add]
      have h3 : pbuf.drop c = ((memcpy (key.ep_in (CANOKEY_EP_IN nr)) pbuf size).drop c).take
          (size - c) := by
        conv_lhs => rw [← htake]
        rw [List.drop_take]
      have h4 : min size c = c := by omega
      rw [h3, List.take_take, h4, Nat.min_comm]
    refine ⟨_, (k', p') :: rs, htx, drain_cons _ k' p' nr c cs rs h1 h2, hdel, ?_, ?_⟩
    · intro hle
      rw [hdel, hfull _ hle]
    · simp only [final]
      rw [hfin, hp, hsz']
      split <;> omega
  · rw [if_neg hlt] at hp
    obtain ⟨rs, h2, hd, hfin⟩ := drain_idle nr cs k' hf hs hp
    have hdel : delivered ((k', p') :: rs) = pbuf.take (c + cs.sum) := by
      rw [delivered_cons, hd, hiov', hfull (min size c) (by omega), List.append_nil]
      exact (hfull (c + cs.sum) (by omega)).symm
    refine ⟨_, (k', p') :: rs, htx, drain_cons _ k' p' nr c cs rs h1 h2, hdel, ?_, ?_⟩
    · intro hle
      rw [hdel, hfull _ hle]
    · simp only [final]
      rw [hfin]
      constructor
      · intro _; omega
      · intro _; trivial

/-- What `canokey_emu_stall_ep` leaves behind: size 0, status Stalled, cursor
and buffer as they were. -/
theorem stall_ep_spec (key : CanoKeyState) (ep : Nat)
    (hfree : key.ep_in_mutex (CANOKEY_EP_IN ep) = false) :
    ∃ k1, canokey_emu_stall_ep key ep = some k1 ∧
      k1.ep_in_mutex (CANOKEY_EP_IN ep) = false ∧
      k1.ep_in_status (CANOKEY_EP_IN ep) = CanoKeyEPStatus.CANOKEY_EP_IN_STALL ∧
      k1.ep_in_size (CANOKEY_EP_IN ep) = 0 ∧
      k1.ep_in_pos = key.ep_in_pos ∧ k1.ep_in = key.ep_in :=
  ⟨_, stall_ep_free key ep hfree, by simp, by simp, by simp, rfl, rfl⟩

/-- A stall set while no transfer is in progress (cursor 0) is reported by the
next IN data transaction, which delivers nothing and leaves the endpoint
waiting with size 0; the transaction after that is answered NAK. -/
theorem stall_reported_once_data (key : CanoKeyState) (nr c1 c2 : Nat)
    (hfree : key.ep_in_mutex (CANOKEY_EP_IN nr) = false)
    (hpos : key.ep_in_pos (CANOKEY_EP_IN nr) = 0) :
    ∃ k1 k2 p2 k3 p3, canokey_emu_stall_ep key nr = some k1 ∧
      canokey_handle_data k1 (in_packet nr c1) [] = some (k2, p2) ∧
      p2.status = USBRet.USB_RET_STALL ∧ p2.iov = [] ∧
      k2.ep_in_status (CANOKEY_EP_IN nr) = CanoKeyEPStatus.CANOKEY_EP_IN_WAIT ∧
      k2.ep_in_size (CANOKEY_EP_IN nr) = 0 ∧ k2.ep_in_pos (CANOKEY_EP_IN nr) = 0 ∧
      canokey_handle_data k2 (in_packet nr c2) [] = some (k3, p3) ∧
      p3.status = USBRet.USB_RET_NAK ∧ p3.iov = [] := by
  obtain ⟨k1, h0, hf1, hs1, hz1, hp1, _⟩ := stall_ep_spec key nr hfree
  obtain ⟨k2, p2, h1, hiov2, hst2, hf2, hs2, hp2, _, hsz2⟩ := in_step_first k1 nr c1 hf1
    (by rw [hs1]; decide) (by rw [hp1]; exact hpos)
  have hz2 : k2.ep_in_size (CANOKEY_EP_IN nr) = 0 := by rw [hsz2]; exact hz1
  have hp2' : k2.ep_in_pos (CANOKEY_EP_IN nr) = 0 := by
    rw [hp2, hz1]; simp
  obtain ⟨k3, p3, h2, hiov3, hnak, _⟩ := in_step_idle k2 nr c2 hf2 hs2 hp2'
  refine ⟨k1, k2, p2, k3, p3, h0, h1, ?_, ?_, hs2, hz2, hp2', h2, hnak, hiov3⟩
  · rw [hst2, if_pos hs1]
  · rw [hiov2, hz1]; simp [ep_in_read_zero]

/-- A stall on the endpoint of a control transaction is reported by the IN part
of the next control transaction, which copies nothing and leaves the endpoint
waiting; the IN part of the control transaction after that is answered NAK. -/
theorem stall_reported_once_control (mid : CanoKeyState) (p : USBPacket) (data : List Nat)
    (hfree : mid.ep_in_mutex (CANOKEY_EP_IN p.nr) = false)
    (hst : mid.ep_in_status (CANOKEY_EP_IN p.nr) = CanoKeyEPStatus.CANOKEY_EP_IN_STALL)
    (hsize : mid.ep_in_size (CANOKEY_EP_IN p.nr) = 0) :
    ∃ k2 p2, handle_control_in mid p data = some (k2, p2, data) ∧
      p2.status = USBRet.USB_RET_STALL ∧ p2.actual_length = 0 ∧
      k2.ep_in_status (CANOKEY_EP_IN p.nr) = CanoKeyEPStatus.CANOKEY_EP_IN_WAIT ∧
      k2.ep_in_size (CANOKEY_EP_IN p.nr) = 0 ∧
      handle_control_in k2 p data = some (k2, { p with status := USBRet.USB_RET_NAK }, data) := by
  have h := handle_control_in_not_wait mid p data hfree (by rw [hst]; decide)
  have hd : memcpy data (mid.ep_in (CANOKEY_EP_IN p.nr)) (mid.ep_in_size (CANOKEY_EP_IN p.nr))
      = data := by
    rw [hsize]; simp [memcpy]
  rw [hd] at h
  refine ⟨_, _, h, by simp [hst], hsize, by simp, hsize, ?_⟩
  exact handle_control_in_wait _ p data hfree (by simp)

/-- With the backend silent, an IN data transaction keeps the cursor bound
(cursor 0 or below the staged size). -/
theorem in_step_keeps_cursor_bound (key : CanoKeyState) (nr c : Nat)
    (hfree : key.ep_in_mutex (CANOKEY_EP_IN nr) = false)
    (hS : key.ep_in_size (CANOKEY_EP_IN nr) < UINT32)
    (hinv : key.ep_in_pos (CANOKEY_EP_IN nr) ≠ 0 →
      key.ep_in_pos (CANOKEY_EP_IN nr) < key.ep_in_size (CANOKEY_EP_IN nr)) :
    ∃ k' p', canokey_handle_data key (in_packet nr c) [] = some (k', p') ∧
      k'.ep_in_size = key.ep_in_size ∧
      (k'.ep_in_pos (CANOKEY_EP_IN nr) ≠ 0 →
        k'.ep_in_pos (CANOKEY_EP_IN nr) < k'.ep_in_size (CANOKEY_EP_IN nr)) := by
  by_cases hpos : key.ep_in_pos (CANOKEY_EP_IN nr) = 0
  · by_cases hst : key.ep_in_status (CANOKEY_EP_IN nr) = CanoKeyEPStatus.CANOKEY_EP_IN_WAIT
    · obtain ⟨k', p', h, _, _, _, _, hp, _, hsz⟩ := in_step_idle key nr c hfree hst hpos
      exact ⟨k', p', h, hsz, fun hne => absurd hp hne⟩
    · obtain ⟨k', p', h, _, _, _, _, hp, _, hsz⟩ := in_step_first key nr c hfree hst hpos
      refine ⟨k', p', h, hsz, fun hne => ?_⟩
      rw [hp] at hne ⊢
      rw [hsz]
      split at hne
      · rename_i hc; rw [if_pos hc]; exact hc
      · exact absurd rfl hne
  · obtain ⟨k', p', h, _, _, _, _, hp, _, hsz⟩ := in_step_cont key nr c hfree
      (Nat.pos_of_ne_zero hpos) (hinv hpos) hS
    refine ⟨k', p', h, hsz, fun hne => ?_⟩
    rw [hp] at hne ⊢
    rw [hsz]
    split at hne
    · rename_i hc; rw [if_pos hc]; exact hc
    · exact absurd rfl hne

/-- An OUT data transaction larger than the recorded capacity: NAK, state kept. -/
theorem handle_data_out_reject (key : CanoKeyState) (p : USBPacket)
    (react : List EmuCall) (hpid : p.pid = USBPid.USB_TOKEN_OUT)
    (hfree : key.key_mutex = false) (hbig : p.iov_size > key.ep_out_size p.nr) :
    canokey_handle_data key p react = some (key, { p with status := USBRet.USB_RET_NAK }) := by
  unfold canokey_handle_data
  simp [hpid, lock_key, hfree, hbig, unlock_lock_key]

/-- The endpoint mutexes of the state after `canokey_realize` are free. -/
theorem realize_mutex_free (i : Nat) : canokey_realize.ep_in_mutex i = false :=
  rfl

/-! ## Properties C1 to C10 -/

set_option maxRecDepth 100000

/-- C1 (evaluation at the failing input): 3 bytes are staged on IN endpoint 1
(cursor 0) and two IN data transactions follow, of capacities 0 and 3.  The
first is answered with success and 0 bytes and leaves the endpoint waiting with
cursor 0, the second is answered NAK: nothing of the payload is delivered,
although the capacities add up to the payload size. -/
theorem zero_capacity_in_drops_staged_payload :
    ((canokey_emu_transmit canokey_realize 1 [1, 2, 3] 3).bind
        (fun k => drain k 1 [0, 3])).map
      (fun rs => (delivered rs,
        rs.map (fun r => (r.2.status, r.1.ep_in_pos 1, r.1.ep_in_status 1)))) =
    some ([], [(USBRet.USB_RET_SUCCESS, 0, CanoKeyEPStatus.CANOKEY_EP_IN_WAIT),
               (USBRet.USB_RET_NAK, 0, CanoKeyEPStatus.CANOKEY_EP_IN_WAIT)]) := by
  decide

/-- C2 (counterexample): 130 bytes are staged on IN endpoint 1, which makes the
status Ready; after the first IN data transaction of capacity 8 the cursor is 8
of 130 and the status is Waiting, not Ready. -/
theorem status_waiting_after_first_partial_delivery :
    (canokey_emu_transmit canokey_realize 1 (List.range 130) 130).map
        (fun k => k.ep_in_status 1) = some CanoKeyEPStatus.CANOKEY_EP_IN_READY ∧
    ((canokey_emu_transmit canokey_realize 1 (List.range 130) 130).bind
        (fun k => drain k 1 [8])).map
      (fun rs => rs.map (fun r => (r.1.ep_in_status 1, r.1.ep_in_pos 1, r.1.ep_in_size 1))) =
    some [(CanoKeyEPStatus.CANOKEY_EP_IN_WAIT, 8, 130)] := by
  decide

/-- C2 (amended): a payload is staged on an IN endpoint with cursor 0, which
makes the status Ready, and is then drained by IN data transactions of any
capacities with the backend silent.  Every transaction returns, and after every
one of them, the first included, the status is Waiting. -/
theorem drain_status_waiting_throughout (key : CanoKeyState) (nr : Nat) (pbuf : List Nat)
    (size : Nat) (caps : List Nat)
    (hfree : key.ep_in_mutex (CANOKEY_EP_IN nr) = false)
    (hpos : key.ep_in_pos (CANOKEY_EP_IN nr) = 0) :
    ∃ key1 rs, canokey_emu_transmit key nr pbuf size = some key1 ∧
      key1.ep_in_status (CANOKEY_EP_IN nr) = CanoKeyEPStatus.CANOKEY_EP_IN_READY ∧
      drain key1 nr caps = some rs ∧ rs.length = caps.length ∧
      ∀ r ∈ rs, r.1.ep_in_status (CANOKEY_EP_IN nr) = CanoKeyEPStatus.CANOKEY_EP_IN_WAIT := by
  have htx := transmit_free key nr pbuf size hfree
  cases caps with
  | nil => exact ⟨_, [], htx, by simp, rfl, rfl, by simp⟩
  | cons c cs =>
    obtain ⟨k', p', h1, _, _, hf, hs, _⟩ := in_step_first _ nr c
      (show ({ key with
          ep_in := ep_in_write key.ep_in (CANOKEY_EP_IN nr) pbuf size
          ep_in_size := upd key.ep_in_size (CANOKEY_EP_IN nr) size
          ep_in_status := upd key.ep_in_status (CANOKEY_EP_IN nr)
            CanoKeyEPStatus.CANOKEY_EP_IN_READY
          ep_in_mutex := upd (upd key.ep_in_mutex (CANOKEY_EP_IN nr) true)
            (CANOKEY_EP_IN nr) false } : CanoKeyState).ep_in_mutex (CANOKEY_EP_IN nr) = false
        by simp)
      (by simp) (by simpa using hpos)
    obtain ⟨rs, h2, hlen, hall⟩ := drain_status_wait nr cs k' hf hs
    refine ⟨_, (k', p') :: rs, htx, by simp, drain_cons _ k' p' nr c cs rs h1 h2,
      by simp [hlen], ?_⟩
    intro r hr
    rcases List.mem_cons.mp hr with rfl | hr
    · exact hs
    · exact hall r hr

/-- C2 (witness): the 130-byte payload on endpoint 1 drained 8 bytes at a time
by 17 transactions. -/
theorem drain_status_waiting_throughout_witness :
    canokey_realize.ep_in_mutex (CANOKEY_EP_IN 1) = false ∧
    canokey_realize.ep_in_pos (CANOKEY_EP_IN 1) = 0 ∧
    ∃ key1 rs, canokey_emu_transmit canokey_realize 1 (List.range 130) 130 = some key1 ∧
      key1.ep_in_status (CANOKEY_EP_IN 1) = CanoKeyEPStatus.CANOKEY_EP_IN_READY ∧
      drain key1 1 (List.replicate 17 8) = some rs ∧
      rs.length = (List.replicate 17 8).length ∧
      ∀ r ∈ rs, r.1.ep_in_status (CANOKEY_EP_IN 1) = CanoKeyEPStatus.CANOKEY_EP_IN_WAIT :=
  ⟨by decide, by decide,
    drain_status_waiting_throughout canokey_realize 1 (List.range 130) 130
      (List.replicate 17 8) (by decide) (by decide)⟩

/-- C3 (evaluation at the failing input): 130 bytes are staged on IN endpoint
1, one IN data transaction of capacity 8 leaves the cursor at 8, then the
backend stalls the endpoint.  The next IN data transaction is answered with
success, not with a stall, delivers the 8 stale bytes at offset 8, and leaves
the endpoint Stalled with cursor 16 and size 0. -/
theorem stall_during_transfer_not_reported :
    ((canokey_emu_transmit canokey_realize 1 (List.range 130) 130).bind (fun k =>
      (canokey_handle_data k (in_packet 1 8) []).bind (fun r1 =>
      (canokey_emu_stall_ep r1.1 1).bind (fun k2 =>
      canokey_handle_data k2 (in_packet 1 8) [])))).map
      (fun r => (r.2.status, r.2.iov, r.1.ep_in_status 1, r.1.ep_in_pos 1, r.1.ep_in_size 1)) =
    some (USBRet.USB_RET_SUCCESS, [8, 9, 10, 11, 12, 13, 14, 15],
      CanoKeyEPStatus.CANOKEY_EP_IN_STALL, 16, 0) := by
  decide

/-- C4: an OUT data transaction whose byte count exceeds the capacity recorded
for its endpoint is answered NAK and the whole state is as before: no call into
the backend is recorded, and the sink pointer, the memory behind it and the
recorded size are unchanged. -/
theorem handle_data_out_over_capacity (key : CanoKeyState) (p : USBPacket)
    (react : List EmuCall) (hpid : p.pid = USBPid.USB_TOKEN_OUT)
    (hfree : key.key_mutex = false) (hbig : p.iov_size > key.ep_out_size p.nr) :
    ∃ key' p', canokey_handle_data key p react = some (key', p') ∧
      p'.status = USBRet.USB_RET_NAK ∧ p'.actual_length = p.actual_length ∧
      key'.calls = key.calls ∧ key'.ep_out = key.ep_out ∧ key'.mem = key.mem ∧
      key'.ep_out_size = key.ep_out_size ∧ key' = key :=
  ⟨key, _, handle_data_out_reject key p react hpid hfree hbig, rfl, rfl, rfl, rfl, rfl, rfl, rfl⟩

/-- C4 (witness): capacity 64 registered on endpoint 2, OUT packet of 100 bytes. -/
theorem handle_data_out_over_capacity_witness :
    (out_packet 2 (List.replicate 100 7)).pid = USBPid.USB_TOKEN_OUT ∧
    (canokey_emu_prepare_receive canokey_realize 2 4096 64).key_mutex = false ∧
    (out_packet 2 (List.replicate 100 7)).iov_size >
      (canokey_emu_prepare_receive canokey_realize 2 4096 64).ep_out_size
        (out_packet 2 (List.replicate 100 7)).nr ∧
    ∃ key' p', canokey_handle_data (canokey_emu_prepare_receive canokey_realize 2 4096 64)
        (out_packet 2 (List.replicate 100 7)) [] = some (key', p') ∧
      p'.status = USBRet.USB_RET_NAK ∧
      p'.actual_length = (out_packet 2 (List.replicate 100 7)).actual_length ∧
      key'.calls = (canokey_emu_prepare_receive canokey_realize 2 4096 64).calls ∧
      key'.ep_out = (canokey_emu_prepare_receive canokey_realize 2 4096 64).ep_out ∧
      key'.mem = (canokey_emu_prepare_receive canokey_realize 2 4096 64).mem ∧
      key'.ep_out_size = (canokey_emu_prepare_receive canokey_realize 2 4096 64).ep_out_size ∧
      key' = canokey_emu_prepare_receive canokey_realize 2 4096 64 :=
  ⟨by decide, by decide, by decide,
    handle_data_out_over_capacity (canokey_emu_prepare_receive canokey_realize 2 4096 64)
      (out_packet 2 (List.replicate 100 7)) [] (by decide) (by decide) (by decide)⟩

/-- C5 (counterexample): endpoint 1 has no receive registration (null sink
pointer, capacity 0) and an OUT data transaction of 0 bytes arrives: it is not
answered NAK, and `canokey_emu_data_out` is called. -/
theorem zero_byte_out_unregistered_accepted :
    canokey_realize.ep_out 1 = NULL ∧ canokey_realize.ep_out_size 1 = 0 ∧
    (canokey_handle_data canokey_realize (out_packet 1 []) []).map
      (fun r => (r.2.status, r.1.calls)) =
    some (USBRet.USB_RET_SUCCESS,
      [Event.canokey_emu_data_out 1 none, Event.qemu_cond_signal]) := by
  decide

/-- C5 (amended): on an OUT endpoint without receive registration (null sink
pointer, capacity 0) an OUT data transaction of one byte or more is answered
NAK with the state unchanged (no copy, no call into the backend); one of zero
bytes passes the capacity check: `canokey_emu_data_out` is called in the
unchanged state and the packet comes back as it was, not NAKed. -/
theorem handle_data_out_unregistered (key : CanoKeyState) (p : USBPacket)
    (react : List EmuCall) (hpid : p.pid = USBPid.USB_TOKEN_OUT)
    (hfree : key.key_mutex = false) (hptr : key.ep_out p.nr = NULL)
    (hcap : key.ep_out_size p.nr = 0) :
    (0 < p.iov_size →
      canokey_handle_data key p react = some (key, { p with status := USBRet.USB_RET_NAK })) ∧
    (p.iov_size = 0 →
      canokey_handle_data key p react =
        (backend { key with key_mutex := true } (Event.canokey_emu_data_out p.nr none) react).map
          (fun k => (unlock_key (emit k Event.qemu_cond_signal), p))) := by
  refine ⟨fun h => handle_data_out_reject key p react hpid hfree (by omega), fun h => ?_⟩
  have hp : ({ p with actual_length := p.actual_length + 0 } : USBPacket) = p := by
    cases p; rfl
  unfold canokey_handle_data
  simp only [hpid, lock_key, hfree, h, hcap, usb_packet_copy_out, mem_write_nil, UINT32,
     upd_self _ _ _ hcap]
  simp [hp, upd_self _ _ _ hcap, mem_write_nil]
  cases backend { key with key_mutex := true } (Event.canokey_emu_data_out p.nr none) react
  · simp
  · cases p; simp_all

/-- C5 (witness): the unregistered endpoint 1 after `canokey_realize`, with an
OUT packet of 3 bytes and one of 0 bytes. -/
theorem handle_data_out_unregistered_witness :
    (canokey_realize.ep_out 1 = NULL ∧ canokey_realize.ep_out_size 1 = 0) ∧
    canokey_handle_data canokey_realize (out_packet 1 [1, 2, 3]) [] =
      some (canokey_realize,
        { out_packet 1 [1, 2, 3] with status := USBRet.USB_RET_NAK }) ∧
    canokey_handle_data canokey_realize (out_packet 1 []) [] =
      (backend { canokey_realize with key_mutex := true }
          (Event.canokey_emu_data_out 1 none) []).map
        (fun k => (unlock_key (emit k Event.qemu_cond_signal), out_packet 1 [])) :=
  ⟨by decide,
    (handle_data_out_unregistered canokey_realize (out_packet 1 [1, 2, 3]) []
      (by decide) (by decide) (by decide) (by decide)).1 (by decide),
    (handle_data_out_unregistered canokey_realize (out_packet 1 []) []
      (by decide) (by decide) (by decide) (by decide)).2 (by decide)⟩

/-- C7 (evaluation at the failing input): from the state after
`canokey_realize`, 130 bytes are staged on IN endpoint 1, one IN data
transaction of capacity 8 is made, and the backend stalls the endpoint.  In the
state reached the cursor is 8 and the size is 0, so the cursor is not 0 and
not below the size, and the continuation length `size - cursor` computed in
32 bits is 4294967288. -/
theorem stall_during_transfer_breaks_cursor_bound :
    ((canokey_emu_transmit canokey_realize 1 (List.range 130) 130).bind (fun k =>
      (canokey_handle_data k (in_packet 1 8) []).bind (fun r1 =>
      canokey_emu_stall_ep r1.1 1))).map
      (fun k => (k.ep_in_pos 1, k.ep_in_size 1,
        (k.ep_in_size 1 + UINT32 - k.ep_in_pos 1) % UINT32)) =
    some (8, 0, 4294967288) := by
  decide

/-- C8 (counterexample): staging 2000 bytes on IN endpoint 1 is not refused:
the call returns, the size recorded is 2000, above the buffer size of 1024, the
status is Ready, and all 2000 bytes are copied: the first 1024 fill the buffer
of endpoint 1, the other 976 overwrite the start of the buffer of endpoint 2
(whose last 48 bytes stay as they were); the buffer of endpoint 0 is untouched. -/
theorem transmit_records_size_above_capacity :
    (canokey_emu_transmit canokey_realize 1 (List.replicate 2000 7) 2000).map
      (fun k => (k.ep_in_size 1, k.ep_in_status 1, k.ep_in 1 == List.replicate 1024 7,
        k.ep_in 2 == List.replicate 976 7 ++ List.replicate 48 0,
        k.ep_in 0 == List.replicate 1024 0)) =
    some (2000, CanoKeyEPStatus.CANOKEY_EP_IN_READY, true, true, true) ∧
    2000 < 2 ^ 16 ∧ CANOKEY_EP_IN_BUFFER_SIZE < 2000 := by
  decide

/-- C8 (amended): `canokey_emu_transmit` makes no capacity check.  For an
endpoint of the device and a length whose copy stays inside the array `ep_in`,
the call returns with the length recorded as staged size and the status Ready,
so the recorded size is at most `CANOKEY_EP_IN_BUFFER_SIZE` exactly when the
length passed is.  When the length is at most `CANOKEY_EP_IN_BUFFER_SIZE`, the
first `size` bytes of the endpoint's buffer are the payload, the rest of that
buffer and the buffers of the other endpoints are as before. -/
theorem transmit_records_size (key : CanoKeyState) (ep : Nat) (pbuf : List Nat) (size : Nat)
    (hfree : key.ep_in_mutex (CANOKEY_EP_IN ep) = false)
    (_hep : CANOKEY_EP_IN ep < CANOKEY_EP_NUM)
    (hbuf : (key.ep_in (CANOKEY_EP_IN ep)).length = CANOKEY_EP_IN_BUFFER_SIZE)
    (hsrc : size ≤ pbuf.length)
    (_harr : CANOKEY_EP_IN ep * CANOKEY_EP_IN_BUFFER_SIZE + size
      ≤ CANOKEY_EP_NUM * CANOKEY_EP_IN_BUFFER_SIZE) :
    ∃ key', canokey_emu_transmit key ep pbuf size = some key' ∧
      key'.ep_in_size (CANOKEY_EP_IN ep) = size ∧
      key'.ep_in_status (CANOKEY_EP_IN ep) = CanoKeyEPStatus.CANOKEY_EP_IN_READY ∧
      (key'.ep_in_size (CANOKEY_EP_IN ep) ≤ CANOKEY_EP_IN_BUFFER_SIZE ↔
        size ≤ CANOKEY_EP_IN_BUFFER_SIZE) ∧
      (size ≤ CANOKEY_EP_IN_BUFFER_SIZE →
        (key'.ep_in (CANOKEY_EP_IN ep)).take size = pbuf.take size ∧
        (key'.ep_in (CANOKEY_EP_IN ep)).drop size = (key.ep_in (CANOKEY_EP_IN ep)).drop size ∧
        ∀ j, j ≠ CANOKEY_EP_IN ep → key'.ep_in j = key.ep_in j) := by
  refine ⟨_, transmit_free key ep pbuf size hfree, by simp, by simp, by simp, ?_⟩
  intro h
  show (ep_in_write key.ep_in (CANOKEY_EP_IN ep) pbuf size (CANOKEY_EP_IN ep)).take size
      = pbuf.take size ∧
    (ep_in_write key.ep_in (CANOKEY_EP_IN ep) pbuf size (CANOKEY_EP_IN ep)).drop size
      = (key.ep_in (CANOKEY_EP_IN ep)).drop size ∧
    ∀ j, j ≠ CANOKEY_EP_IN ep →
      ep_in_write key.ep_in (CANOKEY_EP_IN ep) pbuf size j = key.ep_in j
  rw [ep_in_write_le _ _ _ _ h]
  refine ⟨?_, ?_, ?_⟩
  · rw [upd_same]
    exact memcpy_take _ _ _ (by omega) hsrc
  · rw [upd_same]
    exact memcpy_drop _ _ _ hsrc
  · intro j hj
    exact upd_other _ _ _ _ hj

/-- C8 (witness): 3 bytes staged on endpoint 1 (called with endpoint address 129). -/
theorem transmit_records_size_witness :
    canokey_realize.ep_in_mutex (CANOKEY_EP_IN 129) = false ∧
    CANOKEY_EP_IN 129 < CANOKEY_EP_NUM ∧
    (canokey_realize.ep_in (CANOKEY_EP_IN 129)).length = CANOKEY_EP_IN_BUFFER_SIZE ∧
    3 ≤ [10, 20, 30].length ∧
    CANOKEY_EP_IN 129 * CANOKEY_EP_IN_BUFFER_SIZE + 3
      ≤ CANOKEY_EP_NUM * CANOKEY_EP_IN_BUFFER_SIZE ∧
    ∃ key', canokey_emu_transmit canokey_realize 129 [10, 20, 30] 3 = some key' ∧
      key'.ep_in_size (CANOKEY_EP_IN 129) = 3 ∧
      key'.ep_in_status (CANOKEY_EP_IN 129) = CanoKeyEPStatus.CANOKEY_EP_IN_READY ∧
      (key'.ep_in_size (CANOKEY_EP_IN 129) ≤ CANOKEY_EP_IN_BUFFER_SIZE ↔
        3 ≤ CANOKEY_EP_IN_BUFFER_SIZE) ∧
      (3 ≤ CANOKEY_EP_IN_BUFFER_SIZE →
        (key'.ep_in (CANOKEY_EP_IN 129)).take 3 = [10, 20, 30].take 3 ∧
        (key'.ep_in (CANOKEY_EP_IN 129)).drop 3 =
          (canokey_realize.ep_in (CANOKEY_EP_IN 129)).drop 3 ∧
        ∀ j, j ≠ CANOKEY_EP_IN 129 → key'.ep_in j = canokey_realize.ep_in j) :=
  ⟨by decide, by decide, by decide, by decide, by decide,
    transmit_records_size canokey_realize 129 [10, 20, 30] 3 (by decide) (by decide)
      (by decide) (by decide) (by decide)⟩

/-- C9: an IN transaction that finds the status of its endpoint Waiting when
it looks at it (`mid` is the state at that moment: after the first part of a
control transaction, or after the backend call of a data transaction with
cursor 0) is answered NAK; packet bytes, actual length and the data buffer are
untouched, and buffer, size, cursor and status of every IN endpoint are as
in `mid`. -/
theorem in_transaction_waiting_is_nak (key mid : CanoKeyState) (p : USBPacket)
    (hst : mid.ep_in_status (CANOKEY_EP_IN p.nr) = CanoKeyEPStatus.CANOKEY_EP_IN_WAIT) :
    (∀ (request value index length : Nat) (data : List Nat)
        (on_setup on_data_out : List EmuCall),
      handle_control_out key p request value index length data on_setup on_data_out
        = some mid →
      mid.ep_in_mutex (CANOKEY_EP_IN p.nr) = false →
      canokey_handle_control key p request value index length data on_setup on_data_out
        = some (mid, { p with status := USBRet.USB_RET_NAK }, data)) ∧
    (∀ react : List EmuCall,
      p.pid = USBPid.USB_TOKEN_IN →
      key.ep_in_mutex (CANOKEY_EP_IN p.nr) = false →
      key.ep_in_pos (CANOKEY_EP_IN p.nr) = 0 →
      backend { key with ep_in_mutex := upd key.ep_in_mutex (CANOKEY_EP_IN p.nr) true }
        (Event.canokey_emu_data_in (CANOKEY_EP_IN p.nr)) react = some mid →
      ∃ key', canokey_handle_data key p react
          = some (key', { p with status := USBRet.USB_RET_NAK }) ∧
        key'.ep_in = mid.ep_in ∧ key'.ep_in_size = mid.ep_in_size ∧
        key'.ep_in_pos = mid.ep_in_pos ∧ key'.ep_in_status = mid.ep_in_status ∧
        key'.ep_in_mutex (CANOKEY_EP_IN p.nr) = false) := by
  refine ⟨?_, ?_⟩
  · intro request value index length data on_setup on_data_out hmid hfree
    simp [canokey_handle_control, hmid, handle_control_in_wait mid p data hfree hst]
  · intro react hpid hfree hpos hmid
    exact ⟨_, handle_data_in_first_wait key mid p react hpid hfree hpos hmid hst,
      rfl, rfl, rfl, rfl, by simp [unlock_ep_in, emit]⟩

/-- C9 (witness): an IN data transaction on endpoint 1 and a control
transaction on endpoint 0 in the state after `canokey_realize`, where every
endpoint is waiting. -/
theorem in_transaction_waiting_is_nak_witness :
    (∃ key', canokey_handle_data canokey_realize (in_packet 1 8) []
        = some (key', { in_packet 1 8 with status := USBRet.USB_RET_NAK }) ∧
      key'.ep_in = canokey_realize.ep_in ∧ key'.ep_in_size = canokey_realize.ep_in_size ∧
      key'.ep_in_pos = canokey_realize.ep_in_pos ∧
      key'.ep_in_status = canokey_realize.ep_in_status ∧
      key'.ep_in_mutex 1 = false) ∧
    canokey_handle_control canokey_realize control_packet 0x8006 0x100 0 8
        (List.replicate 8 0) [] [] =
      some (emit (emit canokey_realize (Event.canokey_emu_setup 0x8006 0x100 0 8))
          Event.qemu_cond_signal,
        { control_packet with status := USBRet.USB_RET_NAK }, List.replicate 8 0) :=
  ⟨(in_transaction_waiting_is_nak canokey_realize
      (emit { canokey_realize with ep_in_mutex := upd canokey_realize.ep_in_mutex 1 true }
        (Event.canokey_emu_data_in 1))
      (in_packet 1 8) (by decide)).2 [] rfl (by decide) (by decide) rfl,
   (in_transaction_waiting_is_nak canokey_realize
      (emit (emit canokey_realize (Event.canokey_emu_setup 0x8006 0x100 0 8))
        Event.qemu_cond_signal)
      control_packet (by decide)).1 0x8006 0x100 0 8 (List.replicate 8 0) [] [] rfl
      (by decide)⟩

/-- C10 (counterexample): capacity 64 is registered for endpoint 2 with
`canokey_emu_prepare_receive`; an OUT data transaction of 10 bytes is accepted
and leaves 10 as the recorded size; the next OUT data transaction, of 20 bytes,
at most the 64 registered, is answered NAK: nothing is copied, the recorded
size stays 10 and no call into the backend is made. -/
theorem out_within_registered_capacity_refused :
    ((canokey_handle_data (canokey_emu_prepare_receive canokey_realize 2 4096 64)
        (out_packet 2 (List.range 10)) []).bind (fun r1 =>
      (canokey_handle_data r1.1 (out_packet 2 (List.range 20)) []).map (fun r2 =>
        (r1.2.status, canokey_emu_get_rx_data_size r1.1 2, r2.2.status, r2.2.actual_length,
          canokey_emu_get_rx_data_size r2.1 2, r2.1.calls == r1.1.calls)))) =
    some (USBRet.USB_RET_SUCCESS, 10, USBRet.USB_RET_NAK, 0, 10, true) ∧
    (20 : Nat) ≤ 64 := by
  decide

/-- C10 (amended): an OUT data transaction of `n = p.iov_size` bytes on an
endpoint whose recorded size is `cap = key.ep_out_size p.nr`: the size given to
`canokey_emu_prepare_receive` right after a registration (last part), the
length of the last accepted OUT data transaction otherwise.  If `n ≤ cap` the
transaction returns with the status of the packet untouched (not NAKed);
`canokey_emu_data_out (ep, NULL)` is called once, in a state `cb` in which the
`n` bytes are at the start of the registered sink and
`canokey_emu_get_rx_data_size` returns `n`; the calls recorded are that one and
the signal; with a silent backend the final state still holds the bytes and the
size `n`.  If `n > cap` the transaction is answered NAK with the state
unchanged. -/
theorem handle_data_out_within_capacity (key : CanoKeyState) (p : USBPacket)
    (react : List EmuCall) (hpid : p.pid = USBPid.USB_TOKEN_OUT)
    (hfree : key.key_mutex = false) (hin : ∀ i, key.ep_in_mutex i = false)
    (hu32 : key.ep_out_size p.nr < UINT32)
    (hfresh : p.actual_length = 0) (hlen : p.iov.length = p.iov_size) :
    (p.iov_size ≤ key.ep_out_size p.nr →
      ∃ cb after : CanoKeyState,
        cb.calls = key.calls ∧
        mem_read cb.mem (key.ep_out p.nr) p.iov_size = p.iov ∧
        canokey_emu_get_rx_data_size cb p.nr = p.iov_size ∧
        backend cb (Event.canokey_emu_data_out p.nr none) react = some after ∧
        canokey_handle_data key p react =
          some (unlock_key (emit after Event.qemu_cond_signal),
            { p with actual_length := p.iov_size }) ∧
        (unlock_key (emit after Event.qemu_cond_signal)).calls =
          key.calls ++ [Event.canokey_emu_data_out p.nr none, Event.qemu_cond_signal] ∧
        (react = [] →
          mem_read after.mem (key.ep_out p.nr) p.iov_size = p.iov ∧
          canokey_emu_get_rx_data_size after p.nr = p.iov_size)) ∧
    (p.iov_size > key.ep_out_size p.nr →
      canokey_handle_data key p react =
        some (key, { p with status := USBRet.USB_RET_NAK })) ∧
    (∀ pbuf size : Nat,
      (canokey_emu_prepare_receive key p.nr pbuf size).ep_out_size p.nr = size ∧
      (canokey_emu_prepare_receive key p.nr pbuf size).ep_out p.nr = pbuf ∧
      canokey_emu_get_rx_data_size (canokey_emu_prepare_receive key p.nr pbuf size) p.nr
        = size) := by
  refine ⟨fun hle => ?_, fun hbig => handle_data_out_reject key p react hpid hfree hbig,
    fun pbuf size => by simp [canokey_emu_prepare_receive, canokey_emu_get_rx_data_size]⟩
  have hmod : p.iov_size % UINT32 = p.iov_size := Nat.mod_eq_of_lt (by omega)
  have hbytes : p.iov.take p.iov_size = p.iov := by
    rw [← hlen]; simp
  obtain ⟨after, hafter, _⟩ := emu_calls_total react
    (emit { key with
        key_mutex := true
        mem := mem_write key.mem (key.ep_out p.nr) p.iov
        ep_out_size := upd key.ep_out_size p.nr p.iov_size }
      (Event.canokey_emu_data_out p.nr none)) hin
  have hcalls := (emu_calls_calls react _ _ hafter).1
  refine ⟨{ key with
        key_mutex := true
        mem := mem_write key.mem (key.ep_out p.nr) p.iov
        ep_out_size := upd key.ep_out_size p.nr p.iov_size }, after, rfl, ?_, ?_, hafter, ?_, ?_, ?_⟩
  · have := mem_read_write key.mem (key.ep_out p.nr) p.iov
    rw [hlen] at this
    exact this
  · simp [canokey_emu_get_rx_data_size]
  · have hnot : ¬ p.iov_size > key.ep_out_size p.nr := by omega
    simp [canokey_handle_data, hpid, lock_key, hfree, hnot, usb_packet_copy_out, hmod, hbytes,
      backend, hafter, hfresh]
  · simp [unlock_key, emit, hcalls]
  · intro hr
    subst hr
    simp [backend, emu_calls] at hafter
    subst hafter
    refine ⟨?_, ?_⟩
    · have := mem_read_write key.mem (key.ep_out p.nr) p.iov
      rw [hlen] at this
      exact this
    · simp [canokey_emu_get_rx_data_size, emit]

/-- C10 (witness): the sink of endpoint 2 is registered at address 4096 with
capacity 64 and an OUT packet of 100 bytes is answered NAK with the state
unchanged; the backend registers capacity 128 (the size then recorded) and the
same packet is accepted:
success, the 100 bytes at the start of the sink, size 100, and
`canokey_emu_data_out (2, NULL)` recorded once. -/
theorem handle_data_out_within_capacity_witness :
    canokey_handle_data (canokey_emu_prepare_receive canokey_realize 2 4096 64)
        (out_packet 2 (List.range 100)) [] =
      some (canokey_emu_prepare_receive canokey_realize 2 4096 64,
        { out_packet 2 (List.range 100) with status := USBRet.USB_RET_NAK }) ∧
    (∃ cb after : CanoKeyState,
      mem_read cb.mem 4096 100 = List.range 100 ∧
      canokey_emu_get_rx_data_size cb 2 = 100 ∧
      canokey_handle_data
          (canokey_emu_prepare_receive
            (canokey_emu_prepare_receive canokey_realize 2 4096 64) 2 4096 128)
          (out_packet 2 (List.range 100)) [] =
        some (unlock_key (emit after Event.qemu_cond_signal),
          { out_packet 2 (List.range 100) with actual_length := 100 }) ∧
      (unlock_key (emit after Event.qemu_cond_signal)).calls =
        [Event.canokey_emu_data_out 2 none, Event.qemu_cond_signal] ∧
      mem_read after.mem 4096 100 = List.range 100 ∧
      canokey_emu_get_rx_data_size after 2 = 100) ∧
    ({ out_packet 2 (List.range 100) with actual_length := 100 } : USBPacket).status
      = USBRet.USB_RET_SUCCESS ∧
    canokey_emu_get_rx_data_size
      (canokey_emu_prepare_receive
        (canokey_emu_prepare_receive canokey_realize 2 4096 64) 2 4096 128) 2 = 128 := by
  refine ⟨?_, ?_, rfl, ?_⟩
  rotate_left 2
  · exact ((handle_data_out_within_capacity
      (canokey_emu_prepare_receive canokey_realize 2 4096 64)
      (out_packet 2 (List.range 100)) [] rfl rfl (fun _ => rfl) (by decide) rfl
      (by decide)).2.2 4096 128).2.2
  · exact (handle_data_out_within_capacity
      (canokey_emu_prepare_receive canokey_realize 2 4096 64)
      (out_packet 2 (List.range 100)) [] rfl rfl (fun _ => rfl) (by decide) rfl
      (by decide)).2.1 (by decide)
  · obtain ⟨cb, after, _, hmem, hrx, _, hrun, hcalls, hsilent⟩ :=
      (handle_data_out_within_capacity
        (canokey_emu_prepare_receive
          (canokey_emu_prepare_receive canokey_realize 2 4096 64) 2 4096 128)
        (out_packet 2 (List.range 100)) [] rfl rfl (fun _ => rfl) (by decide) rfl
        (by decide)).1 (by decide)
    exact ⟨cb, after, hmem, hrx, hrun, hcalls, (hsilent rfl).1, (hsilent rfl).2⟩

/-! ## Properties C11 to C18 -/

/-- An entry point that returns leaves cursors, endpoint mutexes and the stop
flag as they were. -/
theorem emu_call_keeps (key k : CanoKeyState) (c : EmuCall) (h : emu_call key c = some k) :
    k.ep_in_pos = key.ep_in_pos ∧ k.ep_in_mutex = key.ep_in_mutex ∧
      k.stop_thread = key.stop_thread := by
  cases c with
  | stall_ep ep =>
    cases hm : key.ep_in_mutex (CANOKEY_EP_IN ep)
    · simp [emu_call, stall_ep_free key ep hm] at h
      subst h; simp [upd_upd_self _ _ _ _ hm]
    · simp [emu_call, stall_ep_held key ep hm] at h
  | set_address a =>
    simp [emu_call, canokey_emu_set_address] at h
    subst h; simp
  | prepare_receive ep pbuf size =>
    simp [emu_call, canokey_emu_prepare_receive] at h
    subst h; simp
  | transmit ep pbuf size =>
    cases hm : key.ep_in_mutex (CANOKEY_EP_IN ep)
    · simp [emu_call, transmit_free key ep pbuf size hm] at h
      subst h; simp [upd_upd_self _ _ _ _ hm]
    · simp [emu_call, transmit_held key ep pbuf size hm] at h

theorem emu_calls_keeps (cs : List EmuCall) : ∀ (key k : CanoKeyState),
    emu_calls key cs = some k →
    k.ep_in_pos = key.ep_in_pos ∧ k.ep_in_mutex = key.ep_in_mutex ∧
      k.stop_thread = key.stop_thread := by
  induction cs with
  | nil => intro key k h; simp [emu_calls] at h; subst h; simp
  | cons c cs ih =>
    intro key k h
    simp [emu_calls, Option.bind_eq_some] at h
    obtain ⟨k1, h1, h2⟩ := h
    have a := emu_call_keeps key k1 c h1
    have b := ih k1 k h2
    exact ⟨b.1.trans a.1, b.2.1.trans a.2.1, b.2.2.trans a.2.2⟩

/-- An IN data transaction with cursor 0 whose backend call returns: the
transaction returns, the calls recorded are `canokey_emu_data_in` and the
signal, and the mutexes are as on entry. -/
theorem handle_data_in_first_returns (key mid : CanoKeyState) (p : USBPacket)
    (react : List EmuCall) (hpid : p.pid = USBPid.USB_TOKEN_IN)
    (hfree : key.ep_in_mutex (CANOKEY_EP_IN p.nr) = false)
    (hpos : key.ep_in_pos (CANOKEY_EP_IN p.nr) = 0)
    (hmid : backend { key with ep_in_mutex := upd key.ep_in_mutex (CANOKEY_EP_IN p.nr) true }
      (Event.canokey_emu_data_in (CANOKEY_EP_IN p.nr)) react = some mid) :
    ∃ k' p', canokey_handle_data key p react = some (k', p') ∧
      k'.calls = key.calls ++
        [Event.canokey_emu_data_in (CANOKEY_EP_IN p.nr), Event.qemu_cond_signal] ∧
      k'.ep_in_mutex = key.ep_in_mutex ∧ k'.key_mutex = key.key_mutex := by
  have hc := emu_calls_calls react _ _ hmid
  have hk := emu_calls_keeps react _ _ hmid
  simp only [emit] at hc hk
  have hm : upd mid.ep_in_mutex (CANOKEY_EP_IN p.nr) false = key.ep_in_mutex := by
    rw [hk.2.1]; exact upd_upd_self _ _ _ _ hfree
  by_cases hst : mid.ep_in_status (CANOKEY_EP_IN p.nr) = CanoKeyEPStatus.CANOKEY_EP_IN_WAIT
  · refine ⟨_, _, handle_data_in_first_wait key mid p react hpid hfree hpos hmid hst, ?_, ?_, ?_⟩
    · simp [unlock_ep_in, emit, hc.1]
    · simpa [unlock_ep_in, emit] using hm
    · simp [unlock_ep_in, emit, hc.2]
  · refine ⟨_, _, handle_data_in_first_deliver key mid p react hpid hfree hpos hmid hst,
      ?_, ?_, ?_⟩
    · simp [unlock_ep_in, emit, hc.1]
    · simpa [unlock_ep_in, emit] using hm
    · simp [unlock_ep_in, emit, hc.2]

/-- What the loop of `canokey_handle_reset` leaves: the three endpoints waiting
with cursor 0, everything else as it was. -/
theorem reset_loop_spec (key : CanoKeyState) :
    (∀ i, i < CANOKEY_EP_NUM →
      (reset_loop key 0 CANOKEY_EP_NUM).ep_in_status i = CanoKeyEPStatus.CANOKEY_EP_IN_WAIT ∧
      (reset_loop key 0 CANOKEY_EP_NUM).ep_in_pos i = 0) ∧
    (reset_loop key 0 CANOKEY_EP_NUM).calls = key.calls ∧
    (reset_loop key 0 CANOKEY_EP_NUM).ep_in_mutex = key.ep_in_mutex ∧
    (reset_loop key 0 CANOKEY_EP_NUM).key_mutex = key.key_mutex ∧
    (reset_loop key 0 CANOKEY_EP_NUM).ep_in = key.ep_in ∧
    (reset_loop key 0 CANOKEY_EP_NUM).ep_in_size = key.ep_in_size := by
  refine ⟨?_, rfl, rfl, rfl, rfl, rfl⟩
  intro i hi
  simp only [CANOKEY_EP_NUM] at hi
  simp only [reset_loop, CANOKEY_EP_NUM]
  interval_cases i <;> simp [upd]

/-- C11: `canokey_handle_reset`, entered with the endpoint mutexes free, returns
for whatever the backend does during `canokey_emu_reset`.  The backend is
called once, in a state `cb` in which every IN endpoint below `CANOKEY_EP_NUM`
is Waiting with cursor 0; on return every one of them has cursor 0, and is
Waiting if the backend staged nothing during the call.  The next IN data
transaction on such an endpoint calls `canokey_emu_data_in` first; with the
backend silent it is answered NAK and delivers no byte of an old payload. -/
theorem handle_reset_all_waiting (key : CanoKeyState) (on_reset : List EmuCall)
    (hin : ∀ i, key.ep_in_mutex i = false) :
    ∃ cb key' : CanoKeyState,
      (∀ i, i < CANOKEY_EP_NUM →
        cb.ep_in_status i = CanoKeyEPStatus.CANOKEY_EP_IN_WAIT ∧ cb.ep_in_pos i = 0) ∧
      backend cb Event.canokey_emu_reset on_reset = some key' ∧
      canokey_handle_reset key on_reset = some key' ∧
      key'.calls = key.calls ++ [Event.canokey_emu_reset] ∧
      (∀ i, i < CANOKEY_EP_NUM → key'.ep_in_pos i = 0) ∧
      (on_reset = [] → ∀ i, i < CANOKEY_EP_NUM →
        key'.ep_in_status i = CanoKeyEPStatus.CANOKEY_EP_IN_WAIT) ∧
      (∀ (nr c : Nat) (react : List EmuCall) (mid : CanoKeyState),
        CANOKEY_EP_IN nr < CANOKEY_EP_NUM →
        backend { key' with ep_in_mutex := upd key'.ep_in_mutex (CANOKEY_EP_IN nr) true }
          (Event.canokey_emu_data_in (CANOKEY_EP_IN nr)) react = some mid →
        ∃ k2 p2, canokey_handle_data key' (in_packet nr c) react = some (k2, p2) ∧
          k2.calls = key'.calls ++
            [Event.canokey_emu_data_in (CANOKEY_EP_IN nr), Event.qemu_cond_signal]) ∧
      (on_reset = [] → ∀ nr c : Nat, CANOKEY_EP_IN nr < CANOKEY_EP_NUM →
        ∃ k2 p2, canokey_handle_data key' (in_packet nr c) [] = some (k2, p2) ∧
          p2.status = USBRet.USB_RET_NAK ∧ p2.iov = [] ∧
          k2.calls = key'.calls ++
            [Event.canokey_emu_data_in (CANOKEY_EP_IN nr), Event.qemu_cond_signal]) := by
  obtain ⟨hloop, hcalls, hmutex, _, _, _⟩ := reset_loop_spec key
  obtain ⟨key', hkey', hfree'⟩ := emu_calls_total on_reset
    (emit (reset_loop key 0 CANOKEY_EP_NUM) Event.canokey_emu_reset)
    (by intro i; simp only [emit]; rw [hmutex]; exact hin i)
  have hc := emu_calls_calls on_reset _ _ hkey'
  have hk := emu_calls_keeps on_reset _ _ hkey'
  simp only [emit] at hc hk
  have hpos' : ∀ i, i < CANOKEY_EP_NUM → key'.ep_in_pos i = 0 := by
    intro i hi; rw [hk.1]; exact (hloop i hi).2
  refine ⟨reset_loop key 0 CANOKEY_EP_NUM, key', hloop, hkey', hkey', ?_, hpos', ?_, ?_, ?_⟩
  · rw [hc.1, hcalls]
  · intro hr i hi
    subst hr
    simp only [emu_calls, Option.some.injEq] at hkey'
    subst hkey'
    exact (hloop i hi).1
  · intro nr c react mid hnr hmid
    obtain ⟨k2, p2, h, hcl, _⟩ := handle_data_in_first_returns key' mid (in_packet nr c) react
      rfl (hfree' _) (hpos' _ hnr) hmid
    exact ⟨k2, p2, h, hcl⟩
  · intro hr nr c hnr
    subst hr
    simp only [emu_calls, Option.some.injEq] at hkey'
    subst hkey'
    obtain ⟨k2, p2, h, hiov, hnak, _⟩ := in_step_idle _ nr c (hfree' _) (hloop _ hnr).1
      (hpos' _ hnr)
    obtain ⟨k3, p3, h3, hcl, _⟩ := handle_data_in_first_returns _ _ (in_packet nr c) []
      rfl (hfree' _) (hpos' _ hnr) (backend_nil _ _)
    rw [h] at h3
    simp only [Option.some.injEq, Prod.mk.injEq] at h3
    obtain ⟨rfl, rfl⟩ := h3
    exact ⟨k2, p2, h, hnak, hiov, hcl⟩

/-- C11 (witness): reset in the state with a transfer in progress on endpoint 1
(cursor 8 of 130 bytes), backend silent, then an IN data transaction of
capacity 8 on endpoint 1. -/
theorem handle_reset_all_waiting_witness :
    transfer_in_progress.ep_in_pos 1 = 8 ∧ transfer_in_progress.ep_in_size 1 = 130 ∧
    ∃ key' k2 p2, canokey_handle_reset transfer_in_progress [] = some key' ∧
      key'.calls = [Event.canokey_emu_reset] ∧
      (∀ i, i < CANOKEY_EP_NUM → key'.ep_in_pos i = 0 ∧
        key'.ep_in_status i = CanoKeyEPStatus.CANOKEY_EP_IN_WAIT) ∧
      canokey_handle_data key' (in_packet 1 8) [] = some (k2, p2) ∧
      p2.status = USBRet.USB_RET_NAK ∧ p2.iov = [] ∧
      k2.calls = [Event.canokey_emu_reset, Event.canokey_emu_data_in 1,
        Event.qemu_cond_signal] := by
  refine ⟨by decide, by decide, ?_⟩
  obtain ⟨_, key', _, _, hret, hcalls, hpos, hst, _, hnext⟩ :=
    handle_reset_all_waiting transfer_in_progress [] (fun _ => rfl)
  obtain ⟨k2, p2, h2, hnak, hiov, hc2⟩ := hnext rfl 1 8 (by decide)
  refine ⟨key', k2, p2, hret, hcalls, fun i hi => ⟨hpos i hi, hst rfl i hi⟩, h2, hnak, hiov, ?_⟩
  rw [hc2, hcalls]
  rfl

/-- An IN data transaction that gets its endpoint mutex, on an endpoint whose
cursor is at most its staged size and whose staged size lies inside its buffer.
With cursor 0 on entry and a backend call that returns, the transaction returns
and the calls it records are one `canokey_emu_data_in` for the endpoint and the
signal.  With a cursor other than 0 it returns for whatever `react` is, records
no call, and copies to the bus the `min (size - cursor) capacity` bytes of the
endpoint buffer at offset cursor. -/
theorem handle_data_in_by_cursor_in_row (key : CanoKeyState) (p : USBPacket)
    (react : List EmuCall) (hpid : p.pid = USBPid.USB_TOKEN_IN)
    (hfree : key.ep_in_mutex (CANOKEY_EP_IN p.nr) = false)
    (hcur : key.ep_in_pos (CANOKEY_EP_IN p.nr) ≤ key.ep_in_size (CANOKEY_EP_IN p.nr))
    (hrow : key.ep_in_size (CANOKEY_EP_IN p.nr) ≤ CANOKEY_EP_IN_BUFFER_SIZE)
    (hlen : key.ep_in_size (CANOKEY_EP_IN p.nr) ≤ (key.ep_in (CANOKEY_EP_IN p.nr)).length) :
    (key.ep_in_pos (CANOKEY_EP_IN p.nr) = 0 →
      ∀ mid, backend { key with ep_in_mutex := upd key.ep_in_mutex (CANOKEY_EP_IN p.nr) true }
          (Event.canokey_emu_data_in (CANOKEY_EP_IN p.nr)) react = some mid →
        ∃ k' p', canokey_handle_data key p react = some (k', p') ∧
          k'.calls = key.calls ++
            [Event.canokey_emu_data_in (CANOKEY_EP_IN p.nr), Event.qemu_cond_signal]) ∧
    (key.ep_in_pos (CANOKEY_EP_IN p.nr) ≠ 0 →
      ∃ k' p', canokey_handle_data key p react = some (k', p') ∧
        k'.calls = key.calls ∧
        p'.iov = p.iov ++
          ((key.ep_in (CANOKEY_EP_IN p.nr)).drop (key.ep_in_pos (CANOKEY_EP_IN p.nr))).take
            (min (key.ep_in_size (CANOKEY_EP_IN p.nr) - key.ep_in_pos (CANOKEY_EP_IN p.nr))
              p.iov_size) ∧
        p'.actual_length = p.actual_length +
          min (key.ep_in_size (CANOKEY_EP_IN p.nr) - key.ep_in_pos (CANOKEY_EP_IN p.nr))
            p.iov_size ∧
        p'.status = p.status) := by
  refine ⟨fun hpos mid hmid => ?_, fun hpos => ?_⟩
  · obtain ⟨k', p', h, hc, _⟩ := handle_data_in_first_returns key mid p react hpid hfree hpos hmid
    exact ⟨k', p', h, hc⟩
  · have hU : CANOKEY_EP_IN_BUFFER_SIZE < UINT32 := by decide
    have hsub : (key.ep_in_size (CANOKEY_EP_IN p.nr) + UINT32 -
        key.ep_in_pos (CANOKEY_EP_IN p.nr)) % UINT32
        = key.ep_in_size (CANOKEY_EP_IN p.nr) - key.ep_in_pos (CANOKEY_EP_IN p.nr) := by
      have : key.ep_in_size (CANOKEY_EP_IN p.nr) + UINT32 - key.ep_in_pos (CANOKEY_EP_IN p.nr)
          = (key.ep_in_size (CANOKEY_EP_IN p.nr) - key.ep_in_pos (CANOKEY_EP_IN p.nr))
            + UINT32 := by
        omega
      rw [this, Nat.add_mod_right, Nat.mod_eq_of_lt (by omega)]
    have h := handle_data_in_cont key p react hpid hfree hpos
    rw [hsub, ep_in_read_row _ _ _ _ (by omega) (by omega)] at h
    refine ⟨_, _, h, rfl, ?_, rfl, rfl⟩
    simp only [usb_packet_copy_in]
    rw [List.take_take, Nat.min_self]

/-- The in-row behaviour on an IN data transaction of capacity 8 on endpoint 1:
on the idle endpoint after `canokey_realize` (cursor 0), and in the state with a
transfer in progress (cursor 8 of 130 bytes). -/
theorem handle_data_in_by_cursor_in_row_example :
    (∃ k' p', canokey_handle_data canokey_realize (in_packet 1 8) [] = some (k', p') ∧
      k'.calls = [Event.canokey_emu_data_in 1, Event.qemu_cond_signal]) ∧
    (∃ k' p', canokey_handle_data transfer_in_progress (in_packet 1 8) [] = some (k', p') ∧
      k'.calls = [] ∧ p'.iov = [8, 9, 10, 11, 12, 13, 14, 15] ∧ p'.actual_length = 8) := by
  constructor
  · exact (handle_data_in_by_cursor_in_row canokey_realize (in_packet 1 8) [] rfl rfl
      (by decide) (by decide) (by decide)).1 (by decide) _ rfl
  · obtain ⟨k', p', h, hc, hiov, hlen, _⟩ :=
      (handle_data_in_by_cursor_in_row transfer_in_progress (in_packet 1 8) [] rfl rfl
        (by decide) (by decide) (by decide)).2 (by decide)
    exact ⟨k', p', h, hc, hiov.trans (by decide), hlen.trans (by decide)⟩

/-- C12 (evaluation at the failing input): 130 bytes are staged on IN endpoint 1,
one IN transaction of capacity 8 delivers 8 of them (cursor 8), then the backend
stalls the endpoint (`canokey_emu_stall_ep`: size 0, cursor still 8).  The next
IN transaction records no call into the backend, as the cursor is not 0, but
the bytes it delivers are not `min (size - cursor) capacity` bytes of a staged
buffer: nothing is staged (size 0, below the cursor), and the transaction
delivers as many bytes as the packet has room for.  With capacity 8 these are
the stale bytes 8 to 15; with capacity 1020, and 3 bytes `[9, 9, 9]` staged on
endpoint 2, these are 1020 bytes, of which the last 4 are read from the buffer
of endpoint 2. -/
theorem continuation_after_stall_delivers_capacity :
    ((canokey_emu_transmit canokey_realize 1 (List.range 130) 130).bind (fun k =>
      (canokey_handle_data k (in_packet 1 8) []).bind (fun r1 =>
      (canokey_emu_stall_ep r1.1 1).bind (fun k2 =>
      (canokey_handle_data k2 (in_packet 1 8) []).map (fun r2 =>
        (k2.ep_in_pos 1, k2.ep_in_size 1, min (k2.ep_in_size 1 - k2.ep_in_pos 1) 8,
          r2.2.iov, r2.2.actual_length, r2.1.calls == k2.calls)))))) =
    some (8, 0, 0, [8, 9, 10, 11, 12, 13, 14, 15], 8, true) ∧
    ((canokey_emu_transmit canokey_realize 1 (List.range 130) 130).bind (fun k =>
      (canokey_handle_data k (in_packet 1 8) []).bind (fun r1 =>
      (canokey_emu_stall_ep r1.1 1).bind (fun k2 =>
      (canokey_emu_transmit k2 2 [9, 9, 9] 3).bind (fun k3 =>
      (canokey_handle_data k3 (in_packet 1 1020) []).map (fun r2 =>
        (min (k3.ep_in_size 1 - k3.ep_in_pos 1) 1020, r2.2.iov.length, r2.2.actual_length,
          r2.1.calls == k3.calls))))))) =
    some (0, 1020, 1020, true) ∧
    ((canokey_emu_transmit canokey_realize 1 (List.range 130) 130).bind (fun k =>
      (canokey_handle_data k (in_packet 1 8) []).bind (fun r1 =>
      (canokey_emu_stall_ep r1.1 1).bind (fun k2 =>
      (canokey_emu_transmit k2 2 [9, 9, 9] 3).bind (fun k3 =>
      (canokey_handle_data k3 (in_packet 1 1020) []).map (fun r2 =>
        (r2.2.iov.take 4, (r2.2.iov.drop 1016).take 4))))))) =
    some ([8, 9, 10, 11], [9, 9, 9, 0]) := by
  refine ⟨?_, ?_, ?_⟩ <;> decide

/-- During `canokey_emu_data_in` the dispatcher holds the mutex of the endpoint:
a backend that calls `canokey_emu_transmit` or `canokey_emu_stall_ep` for the
same endpoint before it returns makes the transaction wait for a mutex its own
thread holds, so the transaction never returns. -/
theorem handle_data_in_self_stage_blocks (key : CanoKeyState) (p : USBPacket)
    (ep : Nat) (pbuf : List Nat) (size : Nat) (rest : List EmuCall)
    (hpid : p.pid = USBPid.USB_TOKEN_IN)
    (hfree : key.ep_in_mutex (CANOKEY_EP_IN p.nr) = false)
    (hpos : key.ep_in_pos (CANOKEY_EP_IN p.nr) = 0)
    (hep : CANOKEY_EP_IN ep = CANOKEY_EP_IN p.nr) :
    canokey_handle_data key p (EmuCall.transmit ep pbuf size :: rest) = none ∧
    canokey_handle_data key p (EmuCall.stall_ep ep :: rest) = none := by
  constructor
  · have hb : backend { key with ep_in_mutex := upd key.ep_in_mutex (CANOKEY_EP_IN p.nr) true }
        (Event.canokey_emu_data_in (CANOKEY_EP_IN p.nr)) (EmuCall.transmit ep pbuf size :: rest)
        = none := by
      simp [backend, emu_calls, emu_call, transmit_held _ ep pbuf size
        (show (emit { key with ep_in_mutex := upd key.ep_in_mutex (CANOKEY_EP_IN p.nr) true }
          (Event.canokey_emu_data_in (CANOKEY_EP_IN p.nr))).ep_in_mutex (CANOKEY_EP_IN ep) = true
          by simp [emit, hep])]
    simp [canokey_handle_data, hpid, lock_ep_in, hfree, hpos, hb]
  · have hb : backend { key with ep_in_mutex := upd key.ep_in_mutex (CANOKEY_EP_IN p.nr) true }
        (Event.canokey_emu_data_in (CANOKEY_EP_IN p.nr)) (EmuCall.stall_ep ep :: rest)
        = none := by
      simp [backend, emu_calls, emu_call, stall_ep_held _ ep
        (show (emit { key with ep_in_mutex := upd key.ep_in_mutex (CANOKEY_EP_IN p.nr) true }
          (Event.canokey_emu_data_in (CANOKEY_EP_IN p.nr))).ep_in_mutex (CANOKEY_EP_IN ep) = true
          by simp [emit, hep])]
    simp [canokey_handle_data, hpid, lock_ep_in, hfree, hpos, hb]

/-- C14 (evaluation at the failing input): in the state after `canokey_realize`
(cursor 0, no mutex held) an IN data transaction on endpoint 1 during which the
backend, inside `canokey_emu_data_in`, stages 3 bytes on endpoint 1 with
`canokey_emu_transmit`, or stalls it with `canokey_emu_stall_ep`, never
returns: the entry point waits for `ep_in_mutex[1]`, which the dispatcher took
before the call.  The same staging on endpoint 2 lets the transaction return. -/
theorem data_in_staging_own_endpoint_never_returns :
    canokey_realize.ep_in_pos 1 = 0 ∧ canokey_realize.ep_in_mutex 1 = false ∧
    canokey_handle_data canokey_realize (in_packet 1 8) [EmuCall.transmit 1 [1, 2, 3] 3]
      = none ∧
    canokey_handle_data canokey_realize (in_packet 1 8) [EmuCall.stall_ep 129] = none ∧
    (canokey_handle_data canokey_realize (in_packet 1 8)
      [EmuCall.transmit 2 [1, 2, 3] 3]).isSome = true :=
  ⟨rfl, rfl, rfl, rfl, rfl⟩

/-- A wake with the stop flag set: the thread returns, the state is as before. -/
theorem canokey_thread_stop (key : CanoKeyState) (w : Wake) (ws : List Wake)
    (hfree : key.key_mutex = false) (hflag : key.stop_thread = false)
    (hstop : w.stop = true) :
    canokey_thread key (w :: ws) = some (key, true) := by
  cases key
  simp_all [canokey_thread, lock_key, unlock_key]

/-- A wake with the stop flag clear: one call of `canokey_emu_device_loop`,
then the thread waits again. -/
theorem canokey_thread_go (key : CanoKeyState) (w : Wake) (ws : List Wake)
    (hfree : key.key_mutex = false) (hflag : key.stop_thread = false)
    (hstop : w.stop = false) :
    canokey_thread key (w :: ws) =
      (backend key Event.canokey_emu_device_loop w.device_loop).bind
        (fun k => canokey_thread k ws) := by
  cases key
  simp_all [canokey_thread, lock_key, unlock_key]

/-- The worker over any sequence of wakes: it returns exactly when some wake has
the stop flag set, and the calls it records are one `canokey_emu_device_loop`
for each wake before the first such wake. -/
theorem canokey_thread_run (wakes : List Wake) : ∀ key : CanoKeyState,
    key.key_mutex = false → key.stop_thread = false → (∀ i, key.ep_in_mutex i = false) →
    ∃ key', canokey_thread key wakes = some (key', wakes.any (fun w => w.stop)) ∧
      key'.calls = key.calls ++
        List.replicate (wakes.takeWhile (fun w => !w.stop)).length
          Event.canokey_emu_device_loop := by
  induction wakes with
  | nil => intro key _ _ _; exact ⟨key, rfl, by simp⟩
  | cons w ws ih =>
    intro key hfree hflag hin
    cases hstop : w.stop
    · obtain ⟨k1, hk1, hin1⟩ := emu_calls_total w.device_loop
        (emit key Event.canokey_emu_device_loop) hin
      have hc := emu_calls_calls w.device_loop _ _ hk1
      have hk := emu_calls_keeps w.device_loop _ _ hk1
      simp only [emit] at hc hk
      obtain ⟨key', h', hcalls⟩ := ih k1 (hc.2.trans hfree) (hk.2.2.trans hflag) hin1
      refine ⟨key', ?_, ?_⟩
      · rw [canokey_thread_go key w ws hfree hflag hstop]
        simp [backend, hk1, h', hstop]
      · rw [hcalls, hc.1]
        simp [hstop, List.replicate_succ]
    · exact ⟨key, by simp [canokey_thread_stop key w ws hfree hflag hstop, hstop],
        by simp [hstop]⟩


/-- C15: the worker thread, entered with `key_mutex` and the endpoint mutexes
free and the stop flag clear.  A wake that finds the stop flag set makes the
thread return at once with the state exactly as before: no
`canokey_emu_device_loop`, no endpoint touched.  A wake that finds it clear
makes one call of `canokey_emu_device_loop` and the thread waits again.  Over
any sequence of wakes the thread returns exactly when some wake has the flag
set, and the calls of `canokey_emu_device_loop` it records are as many as the
wakes before the first wake with the flag set. -/
theorem canokey_thread_iterations (key : CanoKeyState) (hfree : key.key_mutex = false)
    (hflag : key.stop_thread = false) (hin : ∀ i, key.ep_in_mutex i = false) :
    (∀ (w : Wake) (ws : List Wake), w.stop = true →
      canokey_thread key (w :: ws) = some (key, true)) ∧
    (∀ (w : Wake) (ws : List Wake), w.stop = false →
      canokey_thread key (w :: ws) =
        (backend key Event.canokey_emu_device_loop w.device_loop).bind
          (fun k => canokey_thread k ws)) ∧
    (∀ wakes : List Wake,
      ∃ key', canokey_thread key wakes = some (key', wakes.any (fun w => w.stop)) ∧
        key'.calls = key.calls ++
          List.replicate (wakes.takeWhile (fun w => !w.stop)).length
            Event.canokey_emu_device_loop ∧
        (key'.calls.filter (fun e => e = Event.canokey_emu_device_loop)).length =
          (key.calls.filter (fun e => e = Event.canokey_emu_device_loop)).length +
            (wakes.takeWhile (fun w => !w.stop)).length) := by
  refine ⟨fun w ws h => canokey_thread_stop key w ws hfree hflag h,
    fun w ws h => canokey_thread_go key w ws hfree hflag h, fun wakes => ?_⟩
  obtain ⟨key', h, hc⟩ := canokey_thread_run wakes key hfree hflag hin
  refine ⟨key', h, hc, ?_⟩
  rw [hc, List.filter_append, List.length_append]
  congr 1
  rw [List.filter_eq_self.mpr]
  · simp
  · intro e he
    simp [List.eq_of_mem_replicate he]

/-- C15 (witness): five wakes, the third with the stop flag set: the thread
returns and two calls of `canokey_emu_device_loop` are recorded. -/
theorem canokey_thread_iterations_witness :
    canokey_realize.key_mutex = false ∧ canokey_realize.stop_thread = false ∧
    ∃ key', canokey_thread canokey_realize
        [⟨false, []⟩, ⟨false, [EmuCall.transmit 1 [7] 1]⟩, ⟨true, []⟩, ⟨false, []⟩,
          ⟨true, []⟩] = some (key', true) ∧
      key'.calls = [Event.canokey_emu_device_loop, Event.canokey_emu_device_loop] :=
  ⟨rfl, rfl,
    (fun ⟨key', h, hc, _⟩ => ⟨key', h, hc⟩)
      ((canokey_thread_iterations canokey_realize rfl rfl (fun _ => rfl)).2.2
        [⟨false, []⟩, ⟨false, [EmuCall.transmit 1 [7] 1]⟩, ⟨true, []⟩, ⟨false, []⟩,
          ⟨true, []⟩])⟩

/-- The first part of a control transaction without the direction bit (OUT),
entered with no mutex held: both backend calls return, the state `cb` in which
`canokey_emu_data_out` is called holds the host data at the sink of endpoint 0
if one is registered, and the part ends with no mutex held. -/
theorem handle_control_out_dir_out (key : CanoKeyState) (p : USBPacket)
    (request value index length : Nat) (data : List Nat)
    (on_setup on_data_out : List EmuCall)
    (hdir : request &&& DeviceRequest = 0)
    (hfree : key.key_mutex = false) (hin : ∀ i, key.ep_in_mutex i = false) :
    ∃ k1 cb k3 mid : CanoKeyState,
      backend key (Event.canokey_emu_setup request value index length) on_setup = some k1 ∧
      cb.calls = key.calls ++
        [Event.canokey_emu_setup request value index length, Event.qemu_cond_signal] ∧
      (k1.ep_out 0 ≠ NULL →
        mem_read cb.mem (k1.ep_out 0) (data.take length).length = data.take length) ∧
      (k1.ep_out 0 = NULL → cb.mem = k1.mem) ∧
      backend cb (Event.canokey_emu_data_out p.nr (some data)) on_data_out = some k3 ∧
      handle_control_out key p request value index length data on_setup on_data_out
        = some mid ∧
      mid = unlock_key (emit k3 Event.qemu_cond_signal) ∧
      mid.calls = key.calls ++
        [Event.canokey_emu_setup request value index length, Event.qemu_cond_signal,
         Event.canokey_emu_data_out p.nr (some data), Event.qemu_cond_signal] ∧
      mid.key_mutex = false ∧ (∀ i, mid.ep_in_mutex i = false) := by
  obtain ⟨k1, hk1, hin1⟩ := emu_calls_total on_setup
    (emit key (Event.canokey_emu_setup request value index length)) hin
  have hc1 := emu_calls_calls on_setup _ _ hk1
  simp only [emit] at hc1
  obtain ⟨k3, hk3, hin3⟩ := emu_calls_total on_data_out
    (emit { emit k1 Event.qemu_cond_signal with
        key_mutex := true
        mem := if k1.ep_out 0 ≠ NULL then mem_write k1.mem (k1.ep_out 0) (data.take length)
          else k1.mem }
      (Event.canokey_emu_data_out p.nr (some data)))
    (by intro i; simpa [emit] using hin1 i)
  have hc3 := emu_calls_calls on_data_out _ _ hk3
  simp only [emit] at hc3
  refine ⟨k1, { emit k1 Event.qemu_cond_signal with
        key_mutex := true
        mem := if k1.ep_out 0 ≠ NULL then mem_write k1.mem (k1.ep_out 0) (data.take length)
          else k1.mem }, k3, unlock_key (emit k3 Event.qemu_cond_signal),
    hk1, ?_, ?_, ?_, hk3, ?_, rfl, ?_, rfl, ?_⟩
  · simp [emit, hc1.1]
  · intro hne
    simp only [emit, if_pos hne]
    exact mem_read_write _ _ _
  · intro hnull
    simp [emit, hnull]
  · have hkm : k1.key_mutex = false := hc1.2.trans hfree
    simp only [emit, ne_eq, ite_not, List.append_assoc, List.singleton_append] at hk1 hk3
    simp [handle_control_out, backend, emit, hk1, hdir, lock_key, hkm, hk3]
  · simp [unlock_key, emit, hc3.1, hc1.1]
  · intro i
    simpa [unlock_key, emit] using hin3 i


/-- An OUT data transaction within the recorded capacity, backend silent. -/
theorem handle_data_out_accept_silent (key : CanoKeyState) (p : USBPacket)
    (hpid : p.pid = USBPid.USB_TOKEN_OUT) (hfree : key.key_mutex = false)
    (hle : p.iov_size ≤ key.ep_out_size p.nr) (hu32 : key.ep_out_size p.nr < UINT32) :
    ∃ k' p', canokey_handle_data key p [] = some (k', p') ∧
      p'.status = p.status ∧ p'.iov_size = p.iov_size ∧
      k'.ep_out_size = upd key.ep_out_size p.nr p.iov_size ∧
      k'.ep_out = key.ep_out ∧ k'.key_mutex = false ∧ k'.ep_in_mutex = key.ep_in_mutex ∧
      k'.calls = key.calls ++ [Event.canokey_emu_data_out p.nr none, Event.qemu_cond_signal] := by
  have hmod : p.iov_size % UINT32 = p.iov_size := Nat.mod_eq_of_lt (by omega)
  have hnot : ¬ p.iov_size > key.ep_out_size p.nr := by omega
  refine ⟨_, _, by
    simp only [canokey_handle_data, hpid, lock_key, hfree, Bool.false_eq_true, if_false,
      Option.bind_eq_bind, Option.some_bind, hnot, usb_packet_copy_out, hmod, backend_nil]
    rfl, ?_, ?_, ?_, ?_, ?_, ?_, ?_⟩ <;> simp [unlock_key, emit]

/-- One OUT data transaction with the backend silent: it returns, `key_mutex`
is free again, and the recorded capacity does not grow. -/
theorem out_step_silent (key : CanoKeyState) (nr : Nat) (b : List Nat)
    (hfree : key.key_mutex = false) (hu32 : key.ep_out_size nr < UINT32) :
    ∃ k' p', canokey_handle_data key (out_packet nr b) [] = some (k', p') ∧
      k'.key_mutex = false ∧ k'.ep_out_size nr < UINT32 ∧
      k'.ep_out_size nr ≤ key.ep_out_size nr ∧
      (b.length ≤ key.ep_out_size nr →
        p'.status = USBRet.USB_RET_SUCCESS ∧ k'.ep_out_size nr = b.length) ∧
      (key.ep_out_size nr < b.length → p'.status = USBRet.USB_RET_NAK ∧ k' = key) := by
  by_cases hle : b.length ≤ key.ep_out_size nr
  · obtain ⟨k', p', h, hst, _, hsz, _, hkm, _⟩ :=
      handle_data_out_accept_silent key (out_packet nr b) rfl hfree hle hu32
    have hsz' : k'.ep_out_size nr = b.length := by
      rw [hsz]; simp [out_packet]
    exact ⟨k', p', h, hkm, by omega, by omega, fun _ => ⟨hst, hsz'⟩, fun hgt => by omega⟩
  · have h := handle_data_out_reject key (out_packet nr b) [] rfl hfree
      (show (out_packet nr b).iov_size > key.ep_out_size (out_packet nr b).nr by
        simp only [out_packet]; omega)
    exact ⟨_, _, h, hfree, hu32, le_refl _, fun hh => absurd hh hle, fun _ => ⟨rfl, rfl⟩⟩

/-- Across a sequence of OUT data transactions with the backend silent the
recorded capacity never grows. -/
theorem out_run_capacity (nr : Nat) (bs : List (List Nat)) : ∀ key : CanoKeyState,
    key.key_mutex = false → key.ep_out_size nr < UINT32 →
    ∃ rs, out_run key nr bs = some rs ∧ rs.length = bs.length ∧
      List.Chain (fun a b => b ≤ a) (key.ep_out_size nr)
        (rs.map (fun r => r.1.ep_out_size nr)) := by
  induction bs with
  | nil => intro key _ _; exact ⟨[], rfl, rfl, List.Chain.nil⟩
  | cons b bs ih =>
    intro key hfree hu32
    obtain ⟨k', p', h, hkm, hu, hle, _, _⟩ := out_step_silent key nr b hfree hu32
    obtain ⟨rs, hrs, hlen, hch⟩ := ih k' hkm hu
    refine ⟨(k', p') :: rs, by simp [out_run, h, hrs], by simp [hlen], ?_⟩
    simp only [List.map_cons]
    exact List.Chain.cons hle hch


/-- C17: an OUT data transaction of `n = b.length` bytes within the recorded
capacity is accepted with the backend silent.  Afterwards the size recorded for
the endpoint, which `canokey_emu_get_rx_data_size` returns, is `n`, and it is
the capacity: every later OUT data transaction of more than `n` bytes on the
endpoint is answered NAK with the state unchanged; after
`canokey_emu_prepare_receive` with a size that fits, such a transaction is
accepted again; and over any further sequence of OUT data transactions without
registration the recorded capacity never grows. -/
theorem out_size_is_capacity (key : CanoKeyState) (nr : Nat) (b : List Nat)
    (hfree : key.key_mutex = false) (hu32 : key.ep_out_size nr < UINT32)
    (hle : b.length ≤ key.ep_out_size nr) :
    ∃ k1 p1, canokey_handle_data key (out_packet nr b) [] = some (k1, p1) ∧
      p1.status = USBRet.USB_RET_SUCCESS ∧
      k1.ep_out_size nr = b.length ∧ canokey_emu_get_rx_data_size k1 nr = b.length ∧
      (∀ (p2 : USBPacket) (react : List EmuCall), p2.pid = USBPid.USB_TOKEN_OUT →
        p2.nr = nr → b.length < p2.iov_size →
        canokey_handle_data k1 p2 react = some (k1, { p2 with status := USBRet.USB_RET_NAK })) ∧
      (∀ (b2 : List Nat) (pbuf size : Nat), b2.length ≤ size → size < 2 ^ 16 →
        ∃ k2 p2, canokey_handle_data (canokey_emu_prepare_receive k1 nr pbuf size)
            (out_packet nr b2) [] = some (k2, p2) ∧
          p2.status = USBRet.USB_RET_SUCCESS ∧ k2.ep_out_size nr = b2.length) ∧
      (∀ bs : List (List Nat), ∃ rs, out_run k1 nr bs = some rs ∧ rs.length = bs.length ∧
        List.Chain (fun a c => c ≤ a) b.length (rs.map (fun r => r.1.ep_out_size nr))) := by
  obtain ⟨k1, p1, h, hkm, hu, _, hacc, _⟩ := out_step_silent key nr b hfree hu32
  obtain ⟨hst, hsz⟩ := hacc hle
  refine ⟨k1, p1, h, hst, hsz, hsz, ?_, ?_, ?_⟩
  · intro p2 react hpid hnr hgt
    exact handle_data_out_reject k1 p2 react hpid hkm (by rw [hnr, hsz]; exact hgt)
  · intro b2 pbuf size hfit h16
    have hcap : (canokey_emu_prepare_receive k1 nr pbuf size).ep_out_size nr = size := by
      simp [canokey_emu_prepare_receive]
    obtain ⟨k2, p2, h2, _, _, _, hacc2, _⟩ := out_step_silent
      (canokey_emu_prepare_receive k1 nr pbuf size) nr b2 hkm
      (by rw [hcap]; have : (2 : Nat) ^ 16 < UINT32 := by decide
          omega)
    obtain ⟨hst2, hsz2⟩ := hacc2 (by rw [hcap]; exact hfit)
    exact ⟨k2, p2, h2, hst2, hsz2⟩
  · intro bs
    obtain ⟨rs, hrs, hlen, hch⟩ := out_run_capacity nr bs k1 hkm hu
    rw [hsz] at hch
    exact ⟨rs, hrs, hlen, hch⟩

/-- C17 (witness): capacity 64 registered on endpoint 2; an OUT of 10 bytes is
accepted and the recorded size is 10; an OUT of 20 bytes is then answered NAK
although 20 is within the 64 registered; after a new registration of 64 it is
accepted. -/
theorem out_size_is_capacity_witness :
    ∃ k1 p1, canokey_handle_data (canokey_emu_prepare_receive canokey_realize 2 4096 64)
        (out_packet 2 (List.range 10)) [] = some (k1, p1) ∧
      p1.status = USBRet.USB_RET_SUCCESS ∧ canokey_emu_get_rx_data_size k1 2 = 10 ∧
      canokey_handle_data k1 (out_packet 2 (List.range 20)) [] =
        some (k1, { out_packet 2 (List.range 20) with status := USBRet.USB_RET_NAK }) ∧
      ∃ k2 p2, canokey_handle_data (canokey_emu_prepare_receive k1 2 4096 64)
          (out_packet 2 (List.range 20)) [] = some (k2, p2) ∧
        p2.status = USBRet.USB_RET_SUCCESS ∧ k2.ep_out_size 2 = 20 := by
  obtain ⟨k1, p1, h, hst, _, hrx, hnak, hre, _⟩ :=
    out_size_is_capacity (canokey_emu_prepare_receive canokey_realize 2 4096 64) 2
      (List.range 10) rfl (by decide) (by decide)
  exact ⟨k1, p1, h, hst, hrx.trans (by decide),
    hnak (out_packet 2 (List.range 20)) [] rfl rfl (by decide),
    (fun ⟨k2, p2, h2, hs2, hz2⟩ => ⟨k2, p2, h2, hs2, hz2.trans (by decide)⟩)
      (hre (List.range 20) 4096 64 (by decide) (by decide))⟩

/-- The first part of a control transaction with the direction bit (IN): the
setup call and the signal only. -/
theorem handle_control_out_dir_in (key : CanoKeyState) (p : USBPacket)
    (request value index length : Nat) (data : List Nat)
    (on_setup on_data_out : List EmuCall)
    (hdir : request &&& DeviceRequest ≠ 0) (hin : ∀ i, key.ep_in_mutex i = false) :
    ∃ k1 : CanoKeyState,
      backend key (Event.canokey_emu_setup request value index length) on_setup = some k1 ∧
      handle_control_out key p request value index length data on_setup on_data_out
        = some (emit k1 Event.qemu_cond_signal) ∧
      k1.key_mutex = key.key_mutex ∧ (∀ i, k1.ep_in_mutex i = false) := by
  obtain ⟨k1, hk1, hin1⟩ := emu_calls_total on_setup
    (emit key (Event.canokey_emu_setup request value index length)) hin
  have hc1 := emu_calls_calls on_setup _ _ hk1
  refine ⟨k1, hk1, ?_, hc1.2, hin1⟩
  simp [handle_control_out, backend, hk1, hdir]

/-- A control transaction entered with no mutex held returns with no mutex
held, whatever the request and whatever the backend does. -/
theorem handle_control_balance (key : CanoKeyState) (p : USBPacket)
    (request value index length : Nat) (data : List Nat)
    (on_setup on_data_out : List EmuCall) (h : no_lock_held key) :
    ∃ r, canokey_handle_control key p request value index length data on_setup on_data_out
        = some r ∧ no_lock_held r.1 := by
  have hmid : ∃ mid, handle_control_out key p request value index length data on_setup
      on_data_out = some mid ∧ no_lock_held mid := by
    by_cases hdir : request &&& DeviceRequest = 0
    · obtain ⟨_, _, _, mid, _, _, _, _, _, hmid, _, _, hkm, hfree⟩ :=
        handle_control_out_dir_out key p request value index length data on_setup on_data_out
          hdir h.1 h.2
      exact ⟨mid, hmid, hkm, hfree⟩
    · obtain ⟨k1, _, hmid, hkm, hfree⟩ :=
        handle_control_out_dir_in key p request value index length data on_setup on_data_out
          hdir h.2
      exact ⟨_, hmid, hkm.trans h.1, hfree⟩
  obtain ⟨mid, hmid, hno⟩ := hmid
  simp only [canokey_handle_control, hmid, Option.some_bind]
  by_cases hst : mid.ep_in_status (CANOKEY_EP_IN p.nr) = CanoKeyEPStatus.CANOKEY_EP_IN_WAIT
  · exact ⟨_, handle_control_in_wait mid p data (hno.2 _) hst, hno⟩
  · exact ⟨_, handle_control_in_not_wait mid p data (hno.2 _) hst, hno⟩

/-- An OUT data transaction entered with no mutex held returns with no mutex
held, whatever the backend does. -/
theorem handle_data_out_balance (key : CanoKeyState) (p : USBPacket) (react : List EmuCall)
    (hpid : p.pid = USBPid.USB_TOKEN_OUT) (h : no_lock_held key) :
    ∃ r, canokey_handle_data key p react = some r ∧ no_lock_held r.1 := by
  by_cases hbig : p.iov_size > key.ep_out_size p.nr
  · exact ⟨_, handle_data_out_reject key p react hpid h.1 hbig, h⟩
  · obtain ⟨after, hafter, hfree⟩ := emu_calls_total react
      (emit { key with
          key_mutex := true
          mem := mem_write key.mem (key.ep_out p.nr) ((p.iov.drop p.actual_length).take p.iov_size)
          ep_out_size := upd key.ep_out_size p.nr (p.iov_size % UINT32) }
        (Event.canokey_emu_data_out p.nr none)) h.2
    refine ⟨(unlock_key (emit after Event.qemu_cond_signal),
      { p with actual_length := p.actual_length + p.iov_size }), ?_, rfl, hfree⟩
    simp only [emit] at hafter
    simp [canokey_handle_data, hpid, lock_key, h.1, hbig, usb_packet_copy_out, backend, emit,
      hafter]

/-- A data transaction entered with no mutex held: whenever it returns, no
mutex is held; and it returns unless it is an IN transaction with cursor 0
whose backend call does not return. -/
theorem handle_data_balance (key : CanoKeyState) (p : USBPacket) (react : List EmuCall)
    (h : no_lock_held key) :
    (∀ r, canokey_handle_data key p react = some r → no_lock_held r.1) ∧
    ((p.pid = USBPid.USB_TOKEN_IN → key.ep_in_pos (CANOKEY_EP_IN p.nr) = 0 →
        ∃ mid, backend
          { key with ep_in_mutex := upd key.ep_in_mutex (CANOKEY_EP_IN p.nr) true }
          (Event.canokey_emu_data_in (CANOKEY_EP_IN p.nr)) react = some mid) →
      ∃ r, canokey_handle_data key p react = some r) := by
  cases hpid : p.pid with
  | USB_TOKEN_SETUP =>
    have hr : canokey_handle_data key p react
        = some (key, { p with status := USBRet.USB_RET_STALL }) := by
      simp [canokey_handle_data, hpid]
    refine ⟨fun r hrr => ?_, fun _ => ⟨_, hr⟩⟩
    rw [hr] at hrr
    cases hrr
    exact h
  | USB_TOKEN_OUT =>
    obtain ⟨r, hr, hno⟩ := handle_data_out_balance key p react hpid h
    refine ⟨fun r' hrr => ?_, fun _ => ⟨r, hr⟩⟩
    rw [hr] at hrr
    cases hrr
    exact hno
  | USB_TOKEN_IN =>
    by_cases hpos : key.ep_in_pos (CANOKEY_EP_IN p.nr) = 0
    · cases hb : backend
          { key with ep_in_mutex := upd key.ep_in_mutex (CANOKEY_EP_IN p.nr) true }
          (Event.canokey_emu_data_in (CANOKEY_EP_IN p.nr)) react with
      | none =>
        have hnone : canokey_handle_data key p react = none := by
          simp [canokey_handle_data, hpid, lock_ep_in, h.2, hpos, hb]
        refine ⟨fun r hrr => ?_, fun hret => ?_⟩
        · rw [hnone] at hrr; cases hrr
        · obtain ⟨mid, hmid⟩ := hret rfl hpos
          cases hmid
      | some mid =>
        obtain ⟨k', p', hr, _, hm, hkm⟩ := handle_data_in_first_returns key mid p react hpid
          (h.2 _) hpos hb
        refine ⟨fun r hrr => ?_, fun _ => ⟨_, hr⟩⟩
        rw [hr] at hrr
        cases hrr
        exact ⟨hkm.trans h.1, fun i => by rw [hm]; exact h.2 i⟩
    · have hr := handle_data_in_cont key p react hpid (h.2 _) hpos
      refine ⟨fun r hrr => ?_, fun _ => ⟨_, hr⟩⟩
      rw [hr] at hrr
      cases hrr
      exact h


/-- C18: lock balance.  In a state with no mutex held: a control transaction
returns with no mutex held, for every request and whatever the backend does; a
data transaction holds no mutex whenever it returns, the NAK returns included,
and it does return unless it is an IN transaction with cursor 0 whose backend
call does not return; `canokey_emu_transmit` and `canokey_emu_stall_ep` return
with no mutex held. -/
theorem lock_balance (key : CanoKeyState) (h : no_lock_held key) :
    (∀ (p : USBPacket) (request value index length : Nat) (data : List Nat)
        (on_setup on_data_out : List EmuCall),
      ∃ r, canokey_handle_control key p request value index length data on_setup on_data_out
          = some r ∧ no_lock_held r.1) ∧
    (∀ (p : USBPacket) (react : List EmuCall),
      (∀ r, canokey_handle_data key p react = some r → no_lock_held r.1) ∧
      ((p.pid = USBPid.USB_TOKEN_IN → key.ep_in_pos (CANOKEY_EP_IN p.nr) = 0 →
          ∃ mid, backend
            { key with ep_in_mutex := upd key.ep_in_mutex (CANOKEY_EP_IN p.nr) true }
            (Event.canokey_emu_data_in (CANOKEY_EP_IN p.nr)) react = some mid) →
        ∃ r, canokey_handle_data key p react = some r)) ∧
    (∀ (ep : Nat) (pbuf : List Nat) (size : Nat),
      ∃ k, canokey_emu_transmit key ep pbuf size = some k ∧ no_lock_held k) ∧
    (∀ ep : Nat, ∃ k, canokey_emu_stall_ep key ep = some k ∧ no_lock_held k) := by
  refine ⟨fun p request value index length data on_setup on_data_out =>
      handle_control_balance key p request value index length data on_setup on_data_out h,
    fun p react => handle_data_balance key p react h, fun ep pbuf size => ?_, fun ep => ?_⟩
  · refine ⟨_, transmit_free key ep pbuf size (h.2 _), h.1, fun i => ?_⟩
    simp [upd_upd_self _ _ _ _ (h.2 (CANOKEY_EP_IN ep)), h.2]
  · refine ⟨_, stall_ep_free key ep (h.2 _), h.1, fun i => ?_⟩
    simp [upd_upd_self _ _ _ _ (h.2 (CANOKEY_EP_IN ep)), h.2]

/-- C18 (witness): in the state after `canokey_realize` no mutex is held; the
IN data transaction and the control transaction that are answered NAK, an OUT
data transaction and the two entry points all return with no mutex held. -/
theorem lock_balance_witness :
    no_lock_held canokey_realize ∧
    (∃ r, canokey_handle_data canokey_realize (in_packet 1 8) [] = some r ∧
      r.2.status = USBRet.USB_RET_NAK ∧ no_lock_held r.1) ∧
    (∃ r, canokey_handle_control canokey_realize control_packet 0x8006 0x100 0 8
        (List.replicate 8 0) [] [] = some r ∧ no_lock_held r.1) ∧
    (∃ r, canokey_handle_data canokey_realize (out_packet 2 [1, 2, 3]) [] = some r ∧
      no_lock_held r.1) ∧
    (∃ k, canokey_emu_transmit canokey_realize 129 [1, 2, 3] 3 = some k ∧ no_lock_held k) ∧
    (∃ k, canokey_emu_stall_ep canokey_realize 129 = some k ∧ no_lock_held k) := by
  have hno : no_lock_held canokey_realize := ⟨rfl, fun _ => rfl⟩
  obtain ⟨hctl, hdata, htx, hst⟩ := lock_balance canokey_realize hno
  refine ⟨hno, ?_, hctl _ _ _ _ _ _ _ _, ?_, htx _ _ _, hst _⟩
  · obtain ⟨r, hr⟩ := (hdata (in_packet 1 8) []).2 (fun _ _ => ⟨_, rfl⟩)
    have hnak : r.2.status = USBRet.USB_RET_NAK := by
      have h2 : (canokey_handle_data canokey_realize (in_packet 1 8) []).map
          (fun r => r.2.status) = some USBRet.USB_RET_NAK := by decide
      rw [hr] at h2
      exact Option.some.inj h2
    exact ⟨r, hr, hnak, (hdata _ _).1 r hr⟩
  · obtain ⟨r, hr⟩ := (hdata (out_packet 2 [1, 2, 3]) []).2 (fun hpid => by cases hpid)
    exact ⟨r, hr, (hdata _ _).1 r hr⟩

/-- Writes to two different cells can be made in either order. -/
theorem upd_comm {α : Type} (f : Nat → α) (i j : Nat) (v w : α) (h : i ≠ j) :
    upd (upd f i v) j w = upd (upd f j w) i v := by
  funext k
  by_cases hi : k = i
  · subst hi; simp [upd, h]
  · by_cases hj : k = j
    · subst hj; simp [upd, hi]
    · simp [upd, hi, hj]

/-- A read that stays inside row `i` is not changed by a write to another row. -/
theorem ep_in_read_upd (f : Nat → List Nat) (a i off n : Nat) (buf : List Nat)
    (hne : i ≠ a) (h1 : off + n ≤ CANOKEY_EP_IN_BUFFER_SIZE) :
    ep_in_read (upd f a buf) i off n = ep_in_read f i off n :=
  ep_in_read_congr _ _ _ _ _ h1 (upd_other _ _ _ _ hne)

/-- An IN data transaction with the backend silent returns when the mutex of its
endpoint is free. -/
theorem handle_data_in_silent_returns (key : CanoKeyState) (nr c : Nat)
    (hB : key.ep_in_mutex (CANOKEY_EP_IN nr) = false) :
    (canokey_handle_data key (in_packet nr c) []).isSome = true := by
  by_cases hpos : key.ep_in_pos (CANOKEY_EP_IN nr) = 0
  · by_cases hst : key.ep_in_status (CANOKEY_EP_IN nr) = CanoKeyEPStatus.CANOKEY_EP_IN_WAIT
    · rw [handle_data_in_first_wait key _ (in_packet nr c) [] rfl hB hpos
        (backend_nil _ _) hst]
      rfl
    · rw [handle_data_in_first_deliver key _ (in_packet nr c) [] rfl hB hpos
        (backend_nil _ _) (by simpa [emit, in_packet] using hst)]
      rfl
  · rw [handle_data_in_cont key (in_packet nr c) [] rfl hB hpos]
    rfl

/-- An IN data transaction on endpoint `e` with the backend silent, whose cursor
is at most the staged size and whose staged size is at most
`CANOKEY_EP_IN_BUFFER_SIZE`, and a change of buffer, size and status of another
endpoint `a`, can be made in either order.  The transaction leaves buffers and
endpoint mutexes as they were. -/
theorem in_silent_commutes (key : CanoKeyState) (a nr c : Nat) (buf : List Nat) (sz : Nat)
    (s : CanoKeyEPStatus) (hne : a ≠ CANOKEY_EP_IN nr)
    (hB : key.ep_in_mutex (CANOKEY_EP_IN nr) = false)
    (hcur : key.ep_in_pos (CANOKEY_EP_IN nr) ≤ key.ep_in_size (CANOKEY_EP_IN nr))
    (hrow : key.ep_in_size (CANOKEY_EP_IN nr) ≤ CANOKEY_EP_IN_BUFFER_SIZE) :
    ∃ k p, canokey_handle_data key (in_packet nr c) [] = some (k, p) ∧
      canokey_handle_data
          { key with
            ep_in := upd key.ep_in a buf
            ep_in_size := upd key.ep_in_size a sz
            ep_in_status := upd key.ep_in_status a s }
          (in_packet nr c) [] =
        some ({ k with
            ep_in := upd k.ep_in a buf
            ep_in_size := upd k.ep_in_size a sz
            ep_in_status := upd k.ep_in_status a s }, p) ∧
      k.ep_in = key.ep_in ∧ k.ep_in_mutex = key.ep_in_mutex ∧
      k.ep_in_size = key.ep_in_size ∧
      (∀ j, j ≠ CANOKEY_EP_IN nr →
        k.ep_in_status j = key.ep_in_status j ∧ k.ep_in_pos j = key.ep_in_pos j) := by
  have hne' : CANOKEY_EP_IN nr ≠ a := fun h => hne h.symm
  by_cases hpos : key.ep_in_pos (CANOKEY_EP_IN nr) = 0
  · by_cases hst : key.ep_in_status (CANOKEY_EP_IN nr) = CanoKeyEPStatus.CANOKEY_EP_IN_WAIT
    · have h1 := handle_data_in_first_wait key _ (in_packet nr c) [] rfl hB hpos
        (backend_nil _ _) hst
      have h2 := handle_data_in_first_wait
        { key with
          ep_in := upd key.ep_in a buf
          ep_in_size := upd key.ep_in_size a sz
          ep_in_status := upd key.ep_in_status a s } _ (in_packet nr c) [] rfl hB hpos
        (backend_nil _ _) (by simpa [emit, in_packet, upd, hne'] using hst)
      refine ⟨_, _, h1, ?_, rfl, ?_, rfl, ?_⟩
      · rw [h2]; rfl
      · simp [unlock_ep_in, emit, in_packet, upd_upd_self _ _ _ _ hB]
      · intro j _; exact ⟨rfl, rfl⟩
    · have h1 := handle_data_in_first_deliver key _ (in_packet nr c) [] rfl hB hpos
        (backend_nil _ _) (by simpa [emit, in_packet] using hst)
      have h2 := handle_data_in_first_deliver
        { key with
          ep_in := upd key.ep_in a buf
          ep_in_size := upd key.ep_in_size a sz
          ep_in_status := upd key.ep_in_status a s } _ (in_packet nr c) [] rfl hB hpos
        (backend_nil _ _) (by simpa [emit, in_packet, upd, hne'] using hst)
      refine ⟨_, _, h1, ?_, rfl, ?_, rfl, ?_⟩
      · rw [h2]
        simp only [emit, unlock_ep_in, in_packet, upd_other _ _ _ _ hne']
        rw [upd_comm _ _ _ _ _ hne, ep_in_read_upd _ _ _ _ _ _ hne' (by omega)]
      · simp [unlock_ep_in, emit, in_packet, upd_upd_self _ _ _ _ hB]
      · intro j hj
        simp only [unlock_ep_in, emit, in_packet]
        constructor
        · exact upd_other _ _ _ _ hj
        · split
          · exact upd_other _ _ _ _ hj
          · rfl
  · have h1 := handle_data_in_cont key (in_packet nr c) [] rfl hB hpos
    have h2 := handle_data_in_cont
      { key with
        ep_in := upd key.ep_in a buf
        ep_in_size := upd key.ep_in_size a sz
        ep_in_status := upd key.ep_in_status a s } (in_packet nr c) [] rfl hB hpos
    have hU : CANOKEY_EP_IN_BUFFER_SIZE < UINT32 := by decide
    have hsub : (key.ep_in_size (CANOKEY_EP_IN nr) + UINT32 - key.ep_in_pos (CANOKEY_EP_IN nr))
        % UINT32 = key.ep_in_size (CANOKEY_EP_IN nr) - key.ep_in_pos (CANOKEY_EP_IN nr) := by
      have : key.ep_in_size (CANOKEY_EP_IN nr) + UINT32 - key.ep_in_pos (CANOKEY_EP_IN nr)
          = (key.ep_in_size (CANOKEY_EP_IN nr) - key.ep_in_pos (CANOKEY_EP_IN nr)) + UINT32 := by
        omega
      rw [this, Nat.add_mod_right, Nat.mod_eq_of_lt (by omega)]
    refine ⟨_, _, h1, ?_, rfl, rfl, rfl, ?_⟩
    · rw [h2]
      simp only [in_packet, upd_other _ _ _ _ hne', hsub]
      rw [ep_in_read_upd _ _ _ _ _ _ hne' (by omega)]
    · intro j hj
      refine ⟨rfl, ?_⟩
      dsimp only
      split <;> exact upd_other _ _ _ _ hj


/-- With its endpoint mutex free `canokey_emu_transmit` of at most
`CANOKEY_EP_IN_BUFFER_SIZE` bytes changes buffer, size and status of its
endpoint and nothing else. -/
theorem transmit_free_eq (key : CanoKeyState) (ep : Nat) (pbuf : List Nat) (size : Nat)
    (h : key.ep_in_mutex (CANOKEY_EP_IN ep) = false)
    (hsize : size ≤ CANOKEY_EP_IN_BUFFER_SIZE) :
    canokey_emu_transmit key ep pbuf size = some
      { key with
        ep_in := upd key.ep_in (CANOKEY_EP_IN ep) (memcpy (key.ep_in (CANOKEY_EP_IN ep)) pbuf size)
        ep_in_size := upd key.ep_in_size (CANOKEY_EP_IN ep) size
        ep_in_status := upd key.ep_in_status (CANOKEY_EP_IN ep)
          CanoKeyEPStatus.CANOKEY_EP_IN_READY } := by
  rw [transmit_free key ep pbuf size h, ep_in_write_le _ _ _ _ hsize]
  simp [upd_upd_self _ _ _ _ h]

/-- With its endpoint mutex free `canokey_emu_stall_ep` changes size and status
of its endpoint and nothing else. -/
theorem stall_ep_free_eq (key : CanoKeyState) (ep : Nat)
    (h : key.ep_in_mutex (CANOKEY_EP_IN ep) = false) :
    canokey_emu_stall_ep key ep = some
      { key with
        ep_in := upd key.ep_in (CANOKEY_EP_IN ep) (key.ep_in (CANOKEY_EP_IN ep))
        ep_in_size := upd key.ep_in_size (CANOKEY_EP_IN ep) 0
        ep_in_status := upd key.ep_in_status (CANOKEY_EP_IN ep)
          CanoKeyEPStatus.CANOKEY_EP_IN_STALL } := by
  rw [stall_ep_free key ep h]
  simp [upd_upd_self _ _ _ _ h, upd_self _ _ _ rfl]

/-- C13 (counterexample): endpoint 2 has the 3 bytes `[1, 2, 3]` staged and
ready; the backend stages 2000 bytes of value 7 on endpoint 1 and the host
makes an IN transaction of capacity 3 on endpoint 2.  Staging on endpoint 1
writes the buffer of endpoint 2, and the bytes the transaction delivers depend
on the order: `[7, 7, 7]` when the staging comes first, `[1, 2, 3]` when the
transaction comes first. -/
theorem stage_above_capacity_reaches_other_endpoint :
    CANOKEY_EP_IN 1 ≠ CANOKEY_EP_IN 2 ∧
    (canokey_emu_transmit (staged canokey_realize 2 [1, 2, 3] 3) 1
        (List.replicate 2000 7) 2000).map (fun s1 => (s1.ep_in 2).take 3) =
      some [7, 7, 7] ∧
    ((canokey_emu_transmit (staged canokey_realize 2 [1, 2, 3] 3) 1
        (List.replicate 2000 7) 2000).bind (fun s1 =>
      (canokey_handle_data s1 (in_packet 2 3) []).map (fun r => r.2.iov))) =
      some [7, 7, 7] ∧
    ((canokey_handle_data (staged canokey_realize 2 [1, 2, 3] 3) (in_packet 2 3) []).bind
      (fun r => (canokey_emu_transmit r.1 1 (List.replicate 2000 7) 2000).map
        (fun _ => r.2.iov))) =
      some [1, 2, 3] := by
  refine ⟨?_, ?_, ?_, ?_⟩ <;> decide

/-- C13 (amended): staging on IN endpoint A (`canokey_emu_transmit` of at most
`CANOKEY_EP_IN_BUFFER_SIZE` bytes, or `canokey_emu_stall_ep`) and an IN data
transaction with a silent backend on another IN endpoint B whose cursor is at
most its staged size and whose staged size is at most
`CANOKEY_EP_IN_BUFFER_SIZE`, each with only its own endpoint mutex known to be
free.  Either order ends in the same state `k2` with the same packet `p` (same
bytes delivered); staging leaves buffer, size, status and cursor of B as they
were, the transaction leaves those of A as they were; and each of the two
returns also while the mutex of the other endpoint is held. -/
theorem stage_and_drain_commute (key : CanoKeyState) (A nr c : Nat) (pbuf : List Nat)
    (size : Nat) (hne : CANOKEY_EP_IN A ≠ CANOKEY_EP_IN nr)
    (_hA3 : CANOKEY_EP_IN A < CANOKEY_EP_NUM) (_hB3 : CANOKEY_EP_IN nr < CANOKEY_EP_NUM)
    (hA : key.ep_in_mutex (CANOKEY_EP_IN A) = false)
    (hB : key.ep_in_mutex (CANOKEY_EP_IN nr) = false)
    (hsize : size ≤ CANOKEY_EP_IN_BUFFER_SIZE)
    (hcur : key.ep_in_pos (CANOKEY_EP_IN nr) ≤ key.ep_in_size (CANOKEY_EP_IN nr))
    (hrow : key.ep_in_size (CANOKEY_EP_IN nr) ≤ CANOKEY_EP_IN_BUFFER_SIZE) :
    (∃ s1 d1 p k2,
      canokey_emu_transmit key A pbuf size = some s1 ∧
      canokey_handle_data key (in_packet nr c) [] = some (d1, p) ∧
      canokey_handle_data s1 (in_packet nr c) [] = some (k2, p) ∧
      canokey_emu_transmit d1 A pbuf size = some k2 ∧
      (s1.ep_in (CANOKEY_EP_IN nr) = key.ep_in (CANOKEY_EP_IN nr) ∧
        s1.ep_in_size (CANOKEY_EP_IN nr) = key.ep_in_size (CANOKEY_EP_IN nr) ∧
        s1.ep_in_status (CANOKEY_EP_IN nr) = key.ep_in_status (CANOKEY_EP_IN nr) ∧
        s1.ep_in_pos (CANOKEY_EP_IN nr) = key.ep_in_pos (CANOKEY_EP_IN nr)) ∧
      (d1.ep_in (CANOKEY_EP_IN A) = key.ep_in (CANOKEY_EP_IN A) ∧
        d1.ep_in_size (CANOKEY_EP_IN A) = key.ep_in_size (CANOKEY_EP_IN A) ∧
        d1.ep_in_status (CANOKEY_EP_IN A) = key.ep_in_status (CANOKEY_EP_IN A) ∧
        d1.ep_in_pos (CANOKEY_EP_IN A) = key.ep_in_pos (CANOKEY_EP_IN A))) ∧
    (∃ s1 d1 p k2,
      canokey_emu_stall_ep key A = some s1 ∧
      canokey_handle_data key (in_packet nr c) [] = some (d1, p) ∧
      canokey_handle_data s1 (in_packet nr c) [] = some (k2, p) ∧
      canokey_emu_stall_ep d1 A = some k2 ∧
      (s1.ep_in (CANOKEY_EP_IN nr) = key.ep_in (CANOKEY_EP_IN nr) ∧
        s1.ep_in_size (CANOKEY_EP_IN nr) = key.ep_in_size (CANOKEY_EP_IN nr) ∧
        s1.ep_in_status (CANOKEY_EP_IN nr) = key.ep_in_status (CANOKEY_EP_IN nr) ∧
        s1.ep_in_pos (CANOKEY_EP_IN nr) = key.ep_in_pos (CANOKEY_EP_IN nr))) ∧
    (∀ held : CanoKeyState, held.ep_in_mutex (CANOKEY_EP_IN A) = false →
      held.ep_in_mutex (CANOKEY_EP_IN nr) = true →
      (canokey_emu_transmit held A pbuf size).isSome = true ∧
      (canokey_emu_stall_ep held A).isSome = true) ∧
    (∀ held : CanoKeyState, held.ep_in_mutex (CANOKEY_EP_IN nr) = false →
      held.ep_in_mutex (CANOKEY_EP_IN A) = true →
      (canokey_handle_data held (in_packet nr c) []).isSome = true) := by
  have hne' : CANOKEY_EP_IN nr ≠ CANOKEY_EP_IN A := fun h => hne h.symm
  refine ⟨?_, ?_, ?_, ?_⟩
  · obtain ⟨k, p, h1, h2, hbuf, hmx, hsz, hoth⟩ := in_silent_commutes key (CANOKEY_EP_IN A) nr c
      (memcpy (key.ep_in (CANOKEY_EP_IN A)) pbuf size) size
      CanoKeyEPStatus.CANOKEY_EP_IN_READY hne hB hcur hrow
    refine ⟨_, k, p, _, transmit_free_eq key A pbuf size hA hsize, h1, h2, ?_, ?_, ?_⟩
    · rw [transmit_free_eq k A pbuf size (by rw [hmx]; exact hA) hsize, hbuf]
    · exact ⟨upd_other _ _ _ _ hne', upd_other _ _ _ _ hne', upd_other _ _ _ _ hne', rfl⟩
    · exact ⟨by rw [hbuf], by rw [hsz], (hoth _ hne).1, (hoth _ hne).2⟩
  · obtain ⟨k, p, h1, h2, hbuf, hmx, hsz, hoth⟩ := in_silent_commutes key (CANOKEY_EP_IN A) nr c
      (key.ep_in (CANOKEY_EP_IN A)) 0 CanoKeyEPStatus.CANOKEY_EP_IN_STALL hne hB hcur hrow
    refine ⟨_, k, p, _, stall_ep_free_eq key A hA, h1, h2, ?_, ?_⟩
    · rw [stall_ep_free_eq k A (by rw [hmx]; exact hA), hbuf]
    · exact ⟨upd_other _ _ _ _ hne', upd_other _ _ _ _ hne', upd_other _ _ _ _ hne', rfl⟩
  · intro held hfa _
    exact ⟨by rw [transmit_free held A pbuf size hfa]; rfl,
      by rw [stall_ep_free held A hfa]; rfl⟩
  · intro held hfb _
    exact handle_data_in_silent_returns held nr c hfb

/-- C13 (witness): a transfer in progress on endpoint 1 (cursor 8 of 130 bytes)
is continued with capacity 8 while 3 bytes are staged on endpoint 2: in either
order the bytes 8 to 15 are delivered and the state reached is the same. -/
theorem stage_and_drain_commute_witness :
    CANOKEY_EP_IN 2 ≠ CANOKEY_EP_IN 1 ∧
    CANOKEY_EP_IN 2 < CANOKEY_EP_NUM ∧ CANOKEY_EP_IN 1 < CANOKEY_EP_NUM ∧
    3 ≤ CANOKEY_EP_IN_BUFFER_SIZE ∧
    transfer_in_progress.ep_in_pos (CANOKEY_EP_IN 1)
      ≤ transfer_in_progress.ep_in_size (CANOKEY_EP_IN 1) ∧
    transfer_in_progress.ep_in_size (CANOKEY_EP_IN 1) ≤ CANOKEY_EP_IN_BUFFER_SIZE ∧
    ∃ s1 d1 p k2,
      canokey_emu_transmit transfer_in_progress 2 [9, 9, 9] 3 = some s1 ∧
      canokey_handle_data transfer_in_progress (in_packet 1 8) [] = some (d1, p) ∧
      canokey_handle_data s1 (in_packet 1 8) [] = some (k2, p) ∧
      canokey_emu_transmit d1 2 [9, 9, 9] 3 = some k2 ∧
      p.iov = [8, 9, 10, 11, 12, 13, 14, 15] := by
  refine ⟨by decide, by decide, by decide, by decide, by decide, by decide, ?_⟩
  obtain ⟨s1, d1, p, k2, h1, h2, h3, h4, _, _⟩ :=
    (stage_and_drain_commute transfer_in_progress 2 1 8 [9, 9, 9] 3 (by decide) (by decide)
      (by decide) rfl rfl (by decide) (by decide) (by decide)).1
  have hp : p.iov = [8, 9, 10, 11, 12, 13, 14, 15] := by
    have h5 : (canokey_handle_data transfer_in_progress (in_packet 1 8) []).map
        (fun r => r.2.iov) = some [8, 9, 10, 11, 12, 13, 14, 15] := by decide
    rw [h2] at h5
    exact Option.some.inj h5
  exact ⟨s1, d1, p, k2, h1, h2, h3, h4, hp⟩

end CanoKey
